import Mathlib

/-!
Synacor virtual machine: a shallow embedding of the execution engine

The Go program stores everything in `type word uint16`.  Words are modelled as
natural numbers; every place where the Go code can wrap around 16 bits carries
an explicit `% 65536` (`toWord`).  Go errors are values of `Failure`, a Go
`panic` is the `panicked` constructor of `Outcome`.
-/

namespace Synacor

/-! ## Words -/

/-- Conversion `word(x)` of an integer to the 16-bit storage type. -/
def toWord (x : Nat) : Nat := x % 65536

/-- The constant `OFFSET_REG` of memory.go. -/
def OFFSET_REG : Nat := 32768

/-- The function `bytesToWord` of memory.go: `word(aUint | bUint << 8)`. -/
def bytesToWord (a b : Nat) : Nat := toWord (a ||| toWord (b <<< 8))

/-! ## Failures and panics -/

/-- The error values the Go code builds with `errors.New`, one constructor per
message, and the read error of `bufio.Reader.ReadBytes`.

* `ipGreater`: "ip greater than program length"
* `addressOutOfBounds a`: "Address out of bounds: " followed by `a`
* `addressesOutOfBounds s e`: "Addresses out of bounds: " followed by `s:e`
* `invalidNumber n`: "invalid number: " followed by `n`
* `stackEmpty`: "stack is empty"
* `tooFewWords`: "too few words"
* `noInstruction op`: "No Instruction found for opcode: " followed by `op`
* `noBufferedInput`: "could not read any input from buffer"
* `readError`: the error returned by `ReadBytes` (end of input) -/
inductive Failure where
  | ipGreater : Failure
  | addressOutOfBounds (addr : Nat) : Failure
  | addressesOutOfBounds (start stop : Nat) : Failure
  | invalidNumber (n : Nat) : Failure
  | stackEmpty : Failure
  | tooFewWords : Failure
  | noInstruction (opcode : Nat) : Failure
  | noBufferedInput : Failure
  | readError : Failure
  deriving DecidableEq, Repr

/-- The failure kinds of the specification. -/
inductive FailureKind where
  | OutOfBounds | InvalidOperand | UnknownOpcode | EmptyStack | InputUnavailable
  | MalformedWindow
  deriving DecidableEq, Repr

/-- The specification's kind of each error value of the code. -/
def Failure.kind : Failure → FailureKind
  | .ipGreater => .OutOfBounds
  | .addressOutOfBounds _ => .OutOfBounds
  | .addressesOutOfBounds _ _ => .OutOfBounds
  | .invalidNumber _ => .InvalidOperand
  | .stackEmpty => .EmptyStack
  | .tooFewWords => .MalformedWindow
  | .noInstruction _ => .UnknownOpcode
  | .noBufferedInput => .InputUnavailable
  | .readError => .InputUnavailable

/-- Why the process aborted: `check(e)` of main.go called `panic(e)`, or the Go
runtime panicked on an integer division by zero. -/
inductive PanicCause where
  | checkFailed (e : Failure) : PanicCause
  | divideByZero : PanicCause
  deriving DecidableEq, Repr

/-- Result of a piece of Go code that may panic instead of returning. -/
inductive Outcome (α : Type) where
  | panicked (c : PanicCause) : Outcome α
  | returned (a : α) : Outcome α
  deriving DecidableEq, Repr

/-! ## Memory and registers (memory.go) -/

/-- The struct `mainMemory`: a slice of words.  It backs both the main memory
and the register bank. -/
structure mainMemory where
  data : List Nat
  deriving DecidableEq, Repr

/-- The method `mainMemory.Len`. -/
def mainMemory.Len (m : mainMemory) : Nat := m.data.length

/-- The method `mainMemory.Set`: the guard compares the address with
`word(len(m.data))`; `addr < 0` is never true of an unsigned word.  On success
the cell is overwritten in place. -/
def mainMemory.Set (m : mainMemory) (addr value : Nat) : Except Failure mainMemory :=
  if addr ≥ toWord m.data.length then
    .error (.addressOutOfBounds addr)
  else
    .ok ⟨m.data.set addr value⟩

/-- The method `mainMemory.Get`. -/
def mainMemory.Get (m : mainMemory) (addr : Nat) : Except Failure Nat :=
  if addr ≥ toWord m.data.length then
    .error (.addressOutOfBounds addr)
  else
    .ok (m.data.getD addr 0)

/-- The method `mainMemory.GetRange`: on success the slice `m.data[start:end]`. -/
def mainMemory.GetRange (m : mainMemory) (start stop : Nat) : Except Failure (List Nat) :=
  if start > stop ∨ start ≥ toWord m.data.length ∨ stop ≥ toWord m.data.length then
    .error (.addressesOutOfBounds start stop)
  else
    .ok ((m.data.drop start).take (stop - start))

/-- The loop of `initMemory`: word `i` is built from bytes `2i` and `2i+1`, a
trailing odd byte is ignored. -/
def wordsOfBytes : List Nat → List Nat
  | a :: b :: rest => bytesToWord a b :: wordsOfBytes rest
  | _ => []

/-- The function `initMemory`. -/
def initMemory (data : List Nat) : mainMemory := ⟨wordsOfBytes data⟩

/-- The function `initRegisters`: eight words, all zero. -/
def initRegisters : mainMemory := ⟨List.replicate 8 0⟩

/-- The function `reg`: `n - OFFSET_REG` in 16-bit arithmetic.  It has no
failure result. -/
def reg (n : Nat) : Nat := toWord (n + 65536 - OFFSET_REG)

/-! ## Execution context (execution.go) -/

/-- The struct `executionCtx`.  The stack of the collections library is a list
whose head is the top.  The two last fields are not fields of the Go struct:
they are the process's standard input, as the sequence of chunks that
successive reads of the stream deliver, and the bytes written so far to the
standard output. -/
structure executionCtx where
  ip : Nat
  mem : mainMemory
  stack : List Nat
  reg : mainMemory
  running : Bool
  inBuf : List Nat
  stdin : List (List Nat)
  stdout : List Nat
  deriving DecidableEq, Repr

/-- The context `setupExeCtx` returns for a program image given as words. -/
def freshCtx (image : List Nat) (input : List (List Nat)) : executionCtx :=
  { ip := 0, mem := ⟨image⟩, stack := [], reg := initRegisters, running := true,
    inBuf := [], stdin := input, stdout := [] }

/-- The context `setupExeCtx` returns for the bytes of the program file. -/
def setupExeCtx (progData : List Nat) (input : List (List Nat)) : executionCtx :=
  freshCtx (initMemory progData).data input

/-- The function `value` of memory.go. -/
def value (n : Nat) (ctx : executionCtx) : Except Failure Nat :=
  if n < OFFSET_REG then
    .ok n
  else if n < OFFSET_REG + 8 then
    ctx.reg.Get (reg n)
  else
    .error (.invalidNumber n)

/-! ## Instructions (instructions.go) -/

/-- What a handler leaves behind when it returns: the returned error (`none`
for `nil`) and the context as mutated so far. -/
abbrev Handled := Option Failure × executionCtx

/-- The statement `return ctx.reg.Set(idx, val)` that ends most handlers. -/
def returnRegSet (ctx : executionCtx) (idx val : Nat) : Handled :=
  match ctx.reg.Set idx val with
  | .error e => (some e, ctx)
  | .ok r => (none, { ctx with reg := r })

/-- The 22 instruction structs, with their fields in declaration order. -/
inductive Instruction where
  | Inst_Halt : Instruction
  | Inst_Set (reg value : Nat) : Instruction
  | Inst_Push (val : Nat) : Instruction
  | Inst_Pop (reg : Nat) : Instruction
  | Inst_Eq (reg op1 op2 : Nat) : Instruction
  | Inst_Gt (reg op1 op2 : Nat) : Instruction
  | Inst_Jmp (target : Nat) : Instruction
  | Inst_Jt (cond target : Nat) : Instruction
  | Inst_Jf (cond target : Nat) : Instruction
  | Inst_Add (reg op1 op2 : Nat) : Instruction
  | Inst_Mult (reg op1 op2 : Nat) : Instruction
  | Inst_Mod (reg op1 op2 : Nat) : Instruction
  | Inst_And (reg op1 op2 : Nat) : Instruction
  | Inst_Or (reg op1 op2 : Nat) : Instruction
  | Inst_Not (reg op1 : Nat) : Instruction
  | Inst_Rmem (reg addr : Nat) : Instruction
  | Inst_Wmem (addr val : Nat) : Instruction
  | Inst_Call (addr : Nat) : Instruction
  | Inst_Ret : Instruction
  | Inst_Out (char : Nat) : Instruction
  | Inst_In (reg : Nat) : Instruction
  | Inst_Noop : Instruction
  deriving DecidableEq, Repr

/-- Handler of `halt`. -/
def Inst_Halt.Handle (ctx : executionCtx) : Handled :=
  (none, { ctx with running := false })

/-- Handler of `set`. -/
def Inst_Set.Handle (r v : Nat) (ctx : executionCtx) : Handled :=
  returnRegSet ctx r v

/-- Handler of `push`. -/
def Inst_Push.Handle (val : Nat) (ctx : executionCtx) : Handled :=
  (none, { ctx with stack := val :: ctx.stack })

/-- Handler of `pop`: `Pop` of the collections stack returns `nil` on an empty
stack and otherwise removes the top element. -/
def Inst_Pop.Handle (r : Nat) (ctx : executionCtx) : Handled :=
  match ctx.stack with
  | [] => (some .stackEmpty, ctx)
  | val :: rest => returnRegSet { ctx with stack := rest } r val

/-- Handler of `eq`. -/
def Inst_Eq.Handle (r op1 op2 : Nat) (ctx : executionCtx) : Handled :=
  returnRegSet ctx r (if op1 = op2 then 1 else 0)

/-- Handler of `gt`. -/
def Inst_Gt.Handle (r op1 op2 : Nat) (ctx : executionCtx) : Handled :=
  returnRegSet ctx r (if op1 > op2 then 1 else 0)

/-- Handler of `jmp`. -/
def Inst_Jmp.Handle (target : Nat) (ctx : executionCtx) : Handled :=
  (none, { ctx with ip := target })

/-- Handler of `jt`. -/
def Inst_Jt.Handle (cond target : Nat) (ctx : executionCtx) : Handled :=
  if cond ≠ 0 then (none, { ctx with ip := target }) else (none, ctx)

/-- Handler of `jf`. -/
def Inst_Jf.Handle (cond target : Nat) (ctx : executionCtx) : Handled :=
  if cond = 0 then (none, { ctx with ip := target }) else (none, ctx)

/-- Handler of `add`: the sum is a 16-bit sum, then reduced modulo 32768. -/
def Inst_Add.Handle (r op1 op2 : Nat) (ctx : executionCtx) : Handled :=
  returnRegSet ctx r (toWord (op1 + op2) % 32768)

/-- Handler of `mult`: the product is a 16-bit product, then reduced. -/
def Inst_Mult.Handle (r op1 op2 : Nat) (ctx : executionCtx) : Handled :=
  returnRegSet ctx r (toWord (op1 * op2) % 32768)

/-- Handler of `mod`: Go panics on `op1 % 0`. -/
def Inst_Mod.Handle (r op1 op2 : Nat) (ctx : executionCtx) : Outcome Handled :=
  if op2 = 0 then .panicked .divideByZero
  else .returned (returnRegSet ctx r (op1 % op2))

/-- Handler of `and`. -/
def Inst_And.Handle (r op1 op2 : Nat) (ctx : executionCtx) : Handled :=
  returnRegSet ctx r (op1 &&& op2)

/-- Handler of `or`. -/
def Inst_Or.Handle (r op1 op2 : Nat) (ctx : executionCtx) : Handled :=
  returnRegSet ctx r (op1 ||| op2)

/-- Handler of `not`: `^op1 & 0x7FFF`, the complement being that of a 16-bit
word. -/
def Inst_Not.Handle (r op1 : Nat) (ctx : executionCtx) : Handled :=
  returnRegSet ctx r ((op1 ^^^ 0xFFFF) &&& 0x7FFF)

/-- Handler of `rmem`. -/
def Inst_Rmem.Handle (r addr : Nat) (ctx : executionCtx) : Handled :=
  match ctx.mem.Get addr with
  | .error e => (some e, ctx)
  | .ok val => returnRegSet ctx r val

/-- Handler of `wmem`. -/
def Inst_Wmem.Handle (addr val : Nat) (ctx : executionCtx) : Handled :=
  match ctx.mem.Set addr val with
  | .error e => (some e, ctx)
  | .ok m => (none, { ctx with mem := m })

/-- Handler of `call`: pushes the current (already advanced) `ip`. -/
def Inst_Call.Handle (addr : Nat) (ctx : executionCtx) : Handled :=
  (none, { ctx with stack := ctx.ip :: ctx.stack, ip := addr })

/-- Handler of `ret`. -/
def Inst_Ret.Handle (ctx : executionCtx) : Handled :=
  match ctx.stack with
  | [] => (some .stackEmpty, ctx)
  | val :: rest => (none, { ctx with stack := rest, ip := val })

/-- The bytes of Go's `string(c)` for a 16-bit `c`: the UTF-8 encoding of the
code point, the replacement character for a surrogate half. -/
def utf8OfWord (c : Nat) : List Nat :=
  if c < 0x80 then [c]
  else if c < 0x800 then [0xC0 ||| (c >>> 6), 0x80 ||| (c &&& 0x3F)]
  else if 0xD800 ≤ c ∧ c ≤ 0xDFFF then [0xEF, 0xBF, 0xBD]
  else [0xE0 ||| (c >>> 12), 0x80 ||| ((c >>> 6) &&& 0x3F), 0x80 ||| (c &&& 0x3F)]

/-- Handler of `out`: `fmt.Print(string(i.char))`; the write itself is taken
to succeed. -/
def Inst_Out.Handle (char : Nat) (ctx : executionCtx) : Handled :=
  (none, { ctx with stdout := ctx.stdout ++ utf8OfWord char })

/-- The bytes of `buf` up to and including the first `delim`. -/
def takeThrough (delim : Nat) : List Nat → List Nat
  | [] => []
  | b :: rest => if b = delim then [b] else b :: takeThrough delim rest

/-- The call `bufio.NewReader(os.Stdin).ReadBytes(delim)`: the reader pulls
chunks from the stream until the bytes it holds contain `delim`, and returns
them up to and including the first `delim`; what it holds beyond that is lost
with the reader.  When the stream ends first, the call returns an error.  The
second component is what is left of the stream. -/
def readBytes (delim : Nat) : List Nat → List (List Nat) → Option (List Nat) × List (List Nat)
  | _, [] => (none, [])
  | held, chunk :: rest =>
    if delim ∈ held ++ chunk then (some (takeThrough delim (held ++ chunk)), rest)
    else readBytes delim (held ++ chunk) rest

/-- Second half of the handler of `in`, from the comment "check again whether
there is data buffered" on: the first buffered byte is dropped from the buffer
and stored as a word. -/
def Inst_In.takeBuffered (r : Nat) (ctx : executionCtx) : Handled :=
  match ctx.inBuf with
  | [] => (some .noBufferedInput, ctx)
  | char :: rest => returnRegSet { ctx with inBuf := rest } r (bytesToWord char 0)

/-- Handler of `in`: with an empty buffer it first reads a line with a new
reader; a read error empties the buffer and is returned. -/
def Inst_In.Handle (r : Nat) (ctx : executionCtx) : Handled :=
  if ctx.inBuf.length < 1 then
    match readBytes 10 [] ctx.stdin with
    | (none, left) => (some .readError, { ctx with inBuf := [], stdin := left })
    | (some input, left) => Inst_In.takeBuffered r { ctx with inBuf := input, stdin := left }
  else Inst_In.takeBuffered r ctx

/-- Handler of `noop`. -/
def Inst_Noop.Handle (ctx : executionCtx) : Handled := (none, ctx)

/-- The method `Handle` of the interface `Instruction`. -/
def Instruction.Handle : Instruction → executionCtx → Outcome Handled
  | .Inst_Halt, ctx => .returned (Inst_Halt.Handle ctx)
  | .Inst_Set r v, ctx => .returned (Inst_Set.Handle r v ctx)
  | .Inst_Push v, ctx => .returned (Inst_Push.Handle v ctx)
  | .Inst_Pop r, ctx => .returned (Inst_Pop.Handle r ctx)
  | .Inst_Eq r a b, ctx => .returned (Inst_Eq.Handle r a b ctx)
  | .Inst_Gt r a b, ctx => .returned (Inst_Gt.Handle r a b ctx)
  | .Inst_Jmp t, ctx => .returned (Inst_Jmp.Handle t ctx)
  | .Inst_Jt c t, ctx => .returned (Inst_Jt.Handle c t ctx)
  | .Inst_Jf c t, ctx => .returned (Inst_Jf.Handle c t ctx)
  | .Inst_Add r a b, ctx => .returned (Inst_Add.Handle r a b ctx)
  | .Inst_Mult r a b, ctx => .returned (Inst_Mult.Handle r a b ctx)
  | .Inst_Mod r a b, ctx => Inst_Mod.Handle r a b ctx
  | .Inst_And r a b, ctx => .returned (Inst_And.Handle r a b ctx)
  | .Inst_Or r a b, ctx => .returned (Inst_Or.Handle r a b ctx)
  | .Inst_Not r a, ctx => .returned (Inst_Not.Handle r a ctx)
  | .Inst_Rmem r a, ctx => .returned (Inst_Rmem.Handle r a ctx)
  | .Inst_Wmem a v, ctx => .returned (Inst_Wmem.Handle a v ctx)
  | .Inst_Call a, ctx => .returned (Inst_Call.Handle a ctx)
  | .Inst_Ret, ctx => .returned (Inst_Ret.Handle ctx)
  | .Inst_Out c, ctx => .returned (Inst_Out.Handle c ctx)
  | .Inst_In r, ctx => .returned (Inst_In.Handle r ctx)
  | .Inst_Noop, ctx => .returned (Inst_Noop.Handle ctx)

/-- The method `Len` of the interface `Instruction`. -/
def Instruction.Len : Instruction → Nat
  | .Inst_Halt => 1
  | .Inst_Set _ _ => 3
  | .Inst_Push _ => 2
  | .Inst_Pop _ => 2
  | .Inst_Eq _ _ _ => 4
  | .Inst_Gt _ _ _ => 4
  | .Inst_Jmp _ => 2
  | .Inst_Jt _ _ => 3
  | .Inst_Jf _ _ => 3
  | .Inst_Add _ _ _ => 4
  | .Inst_Mult _ _ _ => 4
  | .Inst_Mod _ _ _ => 4
  | .Inst_And _ _ _ => 4
  | .Inst_Or _ _ _ => 4
  | .Inst_Not _ _ => 3
  | .Inst_Rmem _ _ => 3
  | .Inst_Wmem _ _ => 3
  | .Inst_Call _ => 2
  | .Inst_Ret => 1
  | .Inst_Out _ => 2
  | .Inst_In _ => 2
  | .Inst_Noop => 1

/-- The `switch opcode` of `NewInstruction`, in the order of its cases. -/
def lookup (opcode op1Reg op1 op2 op3 : Nat) : Except Failure Instruction :=
  if opcode = 0 then .ok .Inst_Halt
  else if opcode = 2 then .ok (.Inst_Push op1)
  else if opcode = 3 then .ok (.Inst_Pop op1Reg)
  else if opcode = 1 then .ok (.Inst_Set op1Reg op2)
  else if opcode = 4 then .ok (.Inst_Eq op1Reg op2 op3)
  else if opcode = 5 then .ok (.Inst_Gt op1Reg op2 op3)
  else if opcode = 6 then .ok (.Inst_Jmp op1)
  else if opcode = 7 then .ok (.Inst_Jt op1 op2)
  else if opcode = 8 then .ok (.Inst_Jf op1 op2)
  else if opcode = 9 then .ok (.Inst_Add op1Reg op2 op3)
  else if opcode = 10 then .ok (.Inst_Mult op1Reg op2 op3)
  else if opcode = 11 then .ok (.Inst_Mod op1Reg op2 op3)
  else if opcode = 12 then .ok (.Inst_And op1Reg op2 op3)
  else if opcode = 13 then .ok (.Inst_Or op1Reg op2 op3)
  else if opcode = 14 then .ok (.Inst_Not op1Reg op2)
  else if opcode = 15 then .ok (.Inst_Rmem op1Reg op2)
  else if opcode = 16 then .ok (.Inst_Wmem op1 op2)
  else if opcode = 17 then .ok (.Inst_Call op1)
  else if opcode = 18 then .ok .Inst_Ret
  else if opcode = 19 then .ok (.Inst_Out op1)
  else if opcode = 20 then .ok (.Inst_In op1Reg)
  else if opcode = 21 then .ok .Inst_Noop
  else .error (.noInstruction opcode)

/-- The function `NewInstruction`: all three operand words are resolved with
`value`, each followed by `check(err)`, before the opcode is looked at. -/
def NewInstruction (words : List Nat) (ctx : executionCtx) :
    Outcome (Except Failure Instruction) :=
  if words.length < 4 then .returned (.error .tooFewWords)
  else
    let opcode := words.getD 0 0
    let op1Reg := reg (words.getD 1 0)
    match value (words.getD 1 0) ctx with
    | .error e => .panicked (.checkFailed e)
    | .ok op1 =>
      match value (words.getD 2 0) ctx with
      | .error e => .panicked (.checkFailed e)
      | .ok op2 =>
        match value (words.getD 3 0) ctx with
        | .error e => .panicked (.checkFailed e)
        | .ok op3 => .returned (lookup opcode op1Reg op1 op2 op3)

/-! ## The engine (main.go) -/

/-- The function `executeNext`.  The value `inst.Handle(ctx)` returns is not
looked at: the function returns `nil` after the handler. -/
def executeNext (ctx : executionCtx) : Outcome Handled :=
  if ctx.ip > toWord ctx.mem.Len then .returned (some .ipGreater, ctx)
  else
    match ctx.mem.GetRange ctx.ip (toWord (ctx.ip + 4)) with
    | .error e => .returned (some e, ctx)
    | .ok instData =>
      match NewInstruction instData ctx with
      | .panicked c => .panicked c
      | .returned (.error e) => .returned (some e, ctx)
      | .returned (.ok inst) =>
        match inst.Handle { ctx with ip := toWord (ctx.ip + inst.Len) } with
        | .panicked c => .panicked c
        | .returned (_, ctx') => .returned (none, ctx')

/-- The body of the main loop of `main`: an error returned by `executeNext` is
printed and `running` is cleared.  The first component is the printed error. -/
def loopBody (ctx : executionCtx) : Outcome Handled :=
  match executeNext ctx with
  | .panicked c => .panicked c
  | .returned (some e, ctx') => .returned (some e, { ctx' with running := false })
  | .returned (none, ctx') => .returned (none, ctx')

/-- The main loop `for ctx.running`, cut off after `fuel` iterations: the
errors printed so far, in order, and the context reached.  The loop has ended
exactly when the context reached has `running = false`. -/
def mainLoop : Nat → executionCtx → Outcome (List Failure × executionCtx)
  | 0, ctx => .returned ([], ctx)
  | fuel + 1, ctx =>
    if ctx.running then
      match loopBody ctx with
      | .panicked c => .panicked c
      | .returned (e, ctx') =>
        match mainLoop fuel ctx' with
        | .panicked c => .panicked c
        | .returned (es, ctx'') => .returned (e.toList ++ es, ctx'')
    else .returned ([], ctx)

/-! ## Auxiliary notions used in the statements -/

/-- The value an operand word below 32776 resolves to: the word itself when it
is a literal, the content of the register it names otherwise. -/
def operand (ctx : executionCtx) (n : Nat) : Nat :=
  if n < 32768 then n else ctx.reg.data.getD (n - 32768) 0

/-- The four words of memory at `ip`, `ip + 1`, `ip + 2`, `ip + 3`. -/
def windowAt (ctx : executionCtx) : List Nat :=
  [ctx.mem.data.getD ctx.ip 0, ctx.mem.data.getD (ctx.ip + 1) 0,
    ctx.mem.data.getD (ctx.ip + 2) 0, ctx.mem.data.getD (ctx.ip + 3) 0]

/-- The destination register index an instruction record carries, if any. -/
def Instruction.dest : Instruction → Option Nat
  | .Inst_Set r _ => some r
  | .Inst_Pop r => some r
  | .Inst_Eq r _ _ => some r
  | .Inst_Gt r _ _ => some r
  | .Inst_Add r _ _ => some r
  | .Inst_Mult r _ _ => some r
  | .Inst_Mod r _ _ => some r
  | .Inst_And r _ _ => some r
  | .Inst_Or r _ _ => some r
  | .Inst_Not r _ => some r
  | .Inst_Rmem r _ => some r
  | .Inst_In r => some r
  | _ => none

/-- The opcodes of the instructions with a destination operand: set, pop, eq,
gt, add, mult, mod, and, or, not, rmem, in. -/
def destOpcodes : List Nat := [1, 3, 4, 5, 9, 10, 11, 12, 13, 14, 15, 20]

/-- The state invariant behind the 15-bit value range: the bank has eight
registers, every register and every stack entry holds a value in [0, 32767],
and every pending input byte is a byte. -/
structure ValuesInRange (ctx : executionCtx) : Prop where
  bank : ctx.reg.data.length = 8
  regs : ∀ v ∈ ctx.reg.data, v ≤ 32767
  stack : ∀ v ∈ ctx.stack, v ≤ 32767
  buffered : ∀ b ∈ ctx.inBuf, b ≤ 255
  pending : ∀ chunk ∈ ctx.stdin, ∀ b ∈ chunk, b ≤ 255

/-- Memory `after` differs from memory `before` only in cells that now hold a
value in [0, 32767]; the length is the same. -/
def WritesInRange (before after : mainMemory) : Prop :=
  after.data.length = before.data.length ∧
    ∀ a, after.data.getD a 0 = before.data.getD a 0 ∨ after.data.getD a 0 ≤ 32767

/-- The cycle about to run at `ctx` is an `rmem` that copies a word above
32767: the decode window fits, its opcode word is 15 and the cell its address
operand resolves to holds such a word. -/
def rawLoad (ctx : executionCtx) : Bool :=
  decide (ctx.ip + 4 < toWord ctx.mem.data.length ∧ (windowAt ctx).getD 0 0 = 15 ∧
    32767 < ctx.mem.data.getD (operand ctx ((windowAt ctx).getD 2 0)) 0)

/-- The value operands of an instruction record (not its destination index)
all lie in [0, 32767]. -/
def Instruction.valuesInRange : Instruction → Prop
  | .Inst_Set _ v => v ≤ 32767
  | .Inst_Push v => v ≤ 32767
  | .Inst_Eq _ a b => a ≤ 32767 ∧ b ≤ 32767
  | .Inst_Gt _ a b => a ≤ 32767 ∧ b ≤ 32767
  | .Inst_Jmp t => t ≤ 32767
  | .Inst_Jt c t => c ≤ 32767 ∧ t ≤ 32767
  | .Inst_Jf c t => c ≤ 32767 ∧ t ≤ 32767
  | .Inst_Add _ a b => a ≤ 32767 ∧ b ≤ 32767
  | .Inst_Mult _ a b => a ≤ 32767 ∧ b ≤ 32767
  | .Inst_Mod _ a b => a ≤ 32767 ∧ b ≤ 32767
  | .Inst_And _ a b => a ≤ 32767 ∧ b ≤ 32767
  | .Inst_Or _ a b => a ≤ 32767 ∧ b ≤ 32767
  | .Inst_Not _ a => a ≤ 32767
  | .Inst_Rmem _ a => a ≤ 32767
  | .Inst_Wmem a v => a ≤ 32767 ∧ v ≤ 32767
  | .Inst_Call a => a ≤ 32767
  | .Inst_Out c => c ≤ 32767
  | _ => True

/-- The instruction is not an `rmem` whose cell in `ctx` holds a word above
32767. -/
def Instruction.loadsInRange (ctx : executionCtx) : Instruction → Prop
  | .Inst_Rmem _ a => ctx.mem.data.getD a 0 ≤ 32767
  | _ => True

/-- The opcode constant (`OP_HALT` ... `OP_NOOP`) of each instruction struct. -/
def Instruction.opcode : Instruction → Nat
  | .Inst_Halt => 0
  | .Inst_Set _ _ => 1
  | .Inst_Push _ => 2
  | .Inst_Pop _ => 3
  | .Inst_Eq _ _ _ => 4
  | .Inst_Gt _ _ _ => 5
  | .Inst_Jmp _ => 6
  | .Inst_Jt _ _ => 7
  | .Inst_Jf _ _ => 8
  | .Inst_Add _ _ _ => 9
  | .Inst_Mult _ _ _ => 10
  | .Inst_Mod _ _ _ => 11
  | .Inst_And _ _ _ => 12
  | .Inst_Or _ _ _ => 13
  | .Inst_Not _ _ => 14
  | .Inst_Rmem _ _ => 15
  | .Inst_Wmem _ _ => 16
  | .Inst_Call _ => 17
  | .Inst_Ret => 18
  | .Inst_Out _ => 19
  | .Inst_In _ => 20
  | .Inst_Noop => 21

/-- The encoded length of each opcode as the specification's table gives it:
halt, ret, noop have length 1; push, pop, jmp, call, out, in have length 2;
set, jt, jf, not, rmem, wmem have length 3; eq, gt, add, mult, mod, and, or
have length 4. -/
def specLen (opcode : Nat) : Nat :=
  if opcode ∈ [0, 18, 21] then 1
  else if opcode ∈ [2, 3, 6, 17, 19, 20] then 2
  else if opcode ∈ [1, 7, 8, 14, 15, 16] then 3
  else 4

/-- The value a handler assigns to `ip` when it runs in `ctx`, if it assigns
one: the target for `jmp`, for `jt` with a nonzero condition and for `jf`
with a zero condition, the address for `call`, the popped word for `ret` on a
non-empty stack. -/
def Instruction.assignedIp (ctx : executionCtx) : Instruction → Option Nat
  | .Inst_Jmp t => some t
  | .Inst_Jt c t => if c ≠ 0 then some t else none
  | .Inst_Jf c t => if c = 0 then some t else none
  | .Inst_Call a => some a
  | .Inst_Ret => ctx.stack.head?
  | _ => none

/-! ## Lemmas on the decode window, the resolver and the decoder -/

theorem window_of_drop (l : List Nat) (n : Nat) (h : n + 4 ≤ l.length) :
    (l.drop n).take 4 = [l.getD n 0, l.getD (n + 1) 0, l.getD (n + 2) 0, l.getD (n + 3) 0] := by
  have h0 : n < l.length := by omega
  have h1 : n + 1 < l.length := by omega
  have h2 : n + 2 < l.length := by omega
  have h3 : n + 3 < l.length := by omega
  rw [List.drop_eq_getElem_cons h0, List.drop_eq_getElem_cons h1,
    List.drop_eq_getElem_cons h2, List.drop_eq_getElem_cons h3]
  simp only [List.getD_eq_getElem, h0, h1, h2, h3, List.take_succ_cons, List.take_zero]

theorem GetRange_window (m : mainMemory) (ip : Nat) (w : List Nat) :
    m.GetRange ip (toWord (ip + 4)) = .ok w ↔
      ip + 4 < toWord m.data.length ∧
      w = [m.data.getD ip 0, m.data.getD (ip + 1) 0, m.data.getD (ip + 2) 0,
        m.data.getD (ip + 3) 0] := by
  unfold mainMemory.GetRange toWord
  constructor
  · intro h
    split at h
    · cases h
    · rename_i hc
      have hb : ip + 4 < m.data.length % 65536 := by omega
      have hl : m.data.length % 65536 ≤ m.data.length := Nat.mod_le _ _
      have hs : (ip + 4) % 65536 - ip = 4 := by omega
      refine ⟨hb, ?_⟩
      rw [hs, window_of_drop _ _ (by omega)] at h
      cases h
      rfl
  · rintro ⟨hb, rfl⟩
    have hl : m.data.length % 65536 ≤ m.data.length := Nat.mod_le _ _
    have hs : (ip + 4) % 65536 - ip = 4 := by omega
    rw [if_neg (by omega), hs, window_of_drop _ _ (by omega)]

theorem value_ok (ctx : executionCtx) (hreg : ctx.reg.data.length = 8) (n : Nat)
    (hn : n < 32776) : value n ctx = .ok (operand ctx n) := by
  unfold value operand OFFSET_REG
  by_cases h : n < 32768
  · simp [h]
  · have h8 : n < 32768 + 8 := by omega
    have hr : reg n = n - 32768 := by unfold reg toWord OFFSET_REG; omega
    rw [if_neg h, if_pos h8, if_neg h, hr]
    unfold mainMemory.Get toWord
    rw [hreg, if_neg (by omega)]

theorem value_invalid (ctx : executionCtx) (n : Nat) (hn : 32776 ≤ n) :
    value n ctx = .error (.invalidNumber n) := by
  unfold value OFFSET_REG
  rw [if_neg (by omega), if_neg (by omega)]

theorem NewInstruction_window (ctx : executionCtx) (hreg : ctx.reg.data.length = 8)
    (a b c d : Nat) :
    NewInstruction [a, b, c, d] ctx =
      if 32776 ≤ b then .panicked (.checkFailed (.invalidNumber b))
      else if 32776 ≤ c then .panicked (.checkFailed (.invalidNumber c))
      else if 32776 ≤ d then .panicked (.checkFailed (.invalidNumber d))
      else .returned (lookup a (reg b) (operand ctx b) (operand ctx c) (operand ctx d)) := by
  unfold NewInstruction
  simp only [List.length_cons, List.length_nil, List.getD_cons_zero, List.getD_cons_succ]
  by_cases hb : 32776 ≤ b
  · simp [hb, value_invalid ctx b hb]
  · by_cases hc : 32776 ≤ c
    · simp [hb, hc, value_invalid ctx c hc, value_ok ctx hreg b (by omega)]
    · by_cases hd : 32776 ≤ d
      · simp [hb, hc, hd, value_invalid ctx d hd, value_ok ctx hreg b (by omega),
          value_ok ctx hreg c (by omega)]
      · simp [hb, hc, hd, value_ok ctx hreg b (by omega),
          value_ok ctx hreg c (by omega), value_ok ctx hreg d (by omega)]

theorem executeNext_window_fail (ctx : executionCtx)
    (h : ¬ ctx.ip + 4 < toWord ctx.mem.data.length) :
    ∃ e, executeNext ctx = .returned (some e, ctx) ∧ e.kind = .OutOfBounds := by
  unfold executeNext
  by_cases h1 : ctx.ip > toWord ctx.mem.Len
  · exact ⟨.ipGreater, by rw [if_pos h1], rfl⟩
  · rw [if_neg h1]
    cases hg : ctx.mem.GetRange ctx.ip (toWord (ctx.ip + 4)) with
    | error e =>
      refine ⟨e, rfl, ?_⟩
      unfold mainMemory.GetRange at hg
      split at hg
      · cases hg; rfl
      · cases hg
    | ok w => exact absurd ((GetRange_window _ _ _).mp hg).1 h

theorem executeNext_window_ok (ctx : executionCtx)
    (h : ctx.ip + 4 < toWord ctx.mem.data.length) :
    executeNext ctx =
      match NewInstruction (windowAt ctx) ctx with
      | .panicked c => .panicked c
      | .returned (.error e) => .returned (some e, ctx)
      | .returned (.ok inst) =>
        match inst.Handle { ctx with ip := toWord (ctx.ip + inst.Len) } with
        | .panicked c => .panicked c
        | .returned (_, ctx') => .returned (none, ctx') := by
  unfold executeNext
  have hg := (GetRange_window ctx.mem ctx.ip (windowAt ctx)).mpr ⟨h, rfl⟩
  have h1 : ¬ ctx.ip > toWord ctx.mem.Len := by unfold mainMemory.Len; omega
  rw [if_neg h1, hg]

theorem lookup_unknown (a r x y z : Nat) (h : 22 ≤ a) :
    lookup a r x y z = .error (.noInstruction a) := by
  unfold lookup
  iterate 22 rw [if_neg (by omega)]

theorem lookup_cases (a r x y z : Nat) (inst : Instruction)
    (h : lookup a r x y z = .ok inst) :
    (a = 11 ∧ inst = .Inst_Mod r y z) ∨
      (a ≠ 11 ∧ ∀ ctx, ∃ res, inst.Handle ctx = .returned res) := by
  by_cases ha : 22 ≤ a
  · rw [lookup_unknown a r x y z ha] at h
    cases h
  · have ha' : a < 22 := by omega
    interval_cases a <;> simp only [lookup] at h <;> cases h <;> first
      | exact Or.inl ⟨rfl, rfl⟩
      | exact Or.inr ⟨by decide, fun ctx => ⟨_, rfl⟩⟩

/-- Claim C2, amended: with an eight-register bank, one engine cycle panics exactly
when the decode window is read successfully and one of its three operand words
is 32776 or more, or its opcode word is 11 (mod) and the divisor operand
resolves to 0.  In every other case `executeNext` returns, either having
completed the cycle or with a failure value. -/
theorem C2_executeNext_panics_iff (ctx : executionCtx) (hreg : ctx.reg.data.length = 8) :
    (∃ c, executeNext ctx = .panicked c) ↔
      ∃ w, ctx.mem.GetRange ctx.ip (toWord (ctx.ip + 4)) = .ok w ∧
        (32776 ≤ w.getD 1 0 ∨ 32776 ≤ w.getD 2 0 ∨ 32776 ≤ w.getD 3 0 ∨
          (w.getD 0 0 = 11 ∧ value (w.getD 3 0) ctx = .ok 0)) := by
  by_cases hwin : ctx.ip + 4 < toWord ctx.mem.data.length
  · have hg := (GetRange_window ctx.mem ctx.ip (windowAt ctx)).mpr ⟨hwin, rfl⟩
    rw [executeNext_window_ok ctx hwin, hg]
    simp only [Except.ok.injEq, exists_eq_left']
    unfold windowAt
    simp only [List.getD_cons_zero, List.getD_cons_succ]
    generalize ctx.mem.data.getD ctx.ip 0 = a
    generalize ctx.mem.data.getD (ctx.ip + 1) 0 = b
    generalize ctx.mem.data.getD (ctx.ip + 2) 0 = c
    generalize ctx.mem.data.getD (ctx.ip + 3) 0 = d
    rw [NewInstruction_window ctx hreg]
    by_cases hb : 32776 ≤ b
    · simp [hb]
    by_cases hc : 32776 ≤ c
    · simp [hb, hc]
    by_cases hd : 32776 ≤ d
    · simp [hb, hc, hd]
    rw [if_neg hb, if_neg hc, if_neg hd, value_ok ctx hreg d (by omega)]
    cases hl : lookup a (reg b) (operand ctx b) (operand ctx c) (operand ctx d) with
    | error e =>
      have ha : a ≠ 11 := by
        rintro rfl
        simp [lookup] at hl
      simp [hb, hc, hd, ha]
    | ok inst =>
      rcases lookup_cases _ _ _ _ _ _ hl with ⟨ha, hi⟩ | ⟨ha, hi⟩
      · subst hi
        simp only [Instruction.Handle, Inst_Mod.Handle]
        by_cases hz : operand ctx d = 0
        · simp [hb, hc, hd, ha, hz]
        · simp [hb, hc, hd, ha, hz]
      · obtain ⟨res, hres⟩ := hi { ctx with ip := toWord (ctx.ip + inst.Len) }
        simp [hb, hc, hd, ha, hres]
  · obtain ⟨e, he, -⟩ := executeNext_window_fail ctx hwin
    constructor
    · rintro ⟨c, hc⟩
      rw [he] at hc
      cases hc
    · rintro ⟨w, hw, -⟩
      exact absurd ((GetRange_window _ _ _).mp hw).1 hwin

/-- Claim C1, evaluated on the image `[3, 32768, 19, 65, 0, 0, 0, 0, 0]` (pop into
register 0 with an empty stack, then out 65, then halt): the window decodes to
`pop`, the handler returns "stack is empty", yet the loop body reports no error
and leaves `running = true`; the run goes on, prints byte 65 and ends on `halt`
with no error printed at all. -/
theorem C1_pop_failure_not_reported :
    NewInstruction [3, 32768, 19, 65] (freshCtx [3, 32768, 19, 65, 0, 0, 0, 0, 0] []) =
        .returned (.ok (.Inst_Pop 0)) ∧
      Inst_Pop.Handle 0 { freshCtx [3, 32768, 19, 65, 0, 0, 0, 0, 0] [] with ip := 2 } =
        (some .stackEmpty, { freshCtx [3, 32768, 19, 65, 0, 0, 0, 0, 0] [] with ip := 2 }) ∧
      loopBody (freshCtx [3, 32768, 19, 65, 0, 0, 0, 0, 0] []) =
        .returned (none, { freshCtx [3, 32768, 19, 65, 0, 0, 0, 0, 0] [] with ip := 2 }) ∧
      ({ freshCtx [3, 32768, 19, 65, 0, 0, 0, 0, 0] [] with ip := 2 } :
        executionCtx).running = true ∧
      mainLoop 3 (freshCtx [3, 32768, 19, 65, 0, 0, 0, 0, 0] []) =
        .returned ([], { freshCtx [3, 32768, 19, 65, 0, 0, 0, 0, 0] [] with
          ip := 5, running := false, stdout := [65] }) :=
  ⟨rfl, rfl, rfl, rfl, rfl⟩

/-- Claim C2 fails as stated: not every cycle from a freshly loaded image returns.
On the image `[21, 32776, 0, 0, 0]` the cycle panics in `check` with the
invalid-number error of the operand word 32776, and on `[11, 32768, 5, 0, 0]`
(mod with divisor register 0 = 0) it panics with a division by zero. -/
theorem C2_counterexample :
    ¬ (∀ image input, ∃ res, executeNext (freshCtx image input) = .returned res) ∧
      executeNext (freshCtx [21, 32776, 0, 0, 0] []) =
        .panicked (.checkFailed (.invalidNumber 32776)) ∧
      executeNext (freshCtx [11, 32768, 5, 0, 0] []) = .panicked .divideByZero := by
  refine ⟨?_, rfl, rfl⟩
  intro h
  obtain ⟨res, hres⟩ := h [21, 32776, 0, 0, 0] []
  have hp : executeNext (freshCtx [21, 32776, 0, 0, 0] []) =
      .panicked (.checkFailed (.invalidNumber 32776)) := rfl
  rw [hp] at hres
  cases hres


theorem regSet_ok (ctx : executionCtx) (hreg : ctx.reg.data.length = 8) (r v : Nat)
    (hr : r < 8) :
    returnRegSet ctx r v = (none, { ctx with reg := ⟨ctx.reg.data.set r v⟩ }) := by
  unfold returnRegSet mainMemory.Set toWord
  rw [hreg, if_neg (by omega)]

theorem regSet_fail (ctx : executionCtx) (hreg : ctx.reg.data.length = 8) (r v : Nat)
    (hr : 8 ≤ r) :
    returnRegSet ctx r v = (some (.addressOutOfBounds r), ctx) := by
  unfold returnRegSet mainMemory.Set toWord
  rw [hreg, if_pos (by omega)]

theorem not_mask (v : Nat) (hv : v ≤ 32767) : (v ^^^ 0xFFFF) &&& 0x7FFF = 32767 - v := by
  have h1 : (0xFFFF : Nat) = 2 ^ 16 - 1 := by norm_num
  have h2 : (0x7FFF : Nat) = 2 ^ 15 - 1 := by norm_num
  have h3 : 32767 - v = 2 ^ 15 - (v + 1) := by omega
  have hlt : v < 2 ^ 15 := by norm_num; omega
  apply Nat.eq_of_testBit_eq
  intro i
  rw [h3, Nat.testBit_two_pow_sub_succ hlt, Nat.testBit_and, Nat.testBit_xor, h1, h2,
    Nat.testBit_two_pow_sub_one, Nat.testBit_two_pow_sub_one]
  by_cases hi : i < 15
  · have hi' : i < 16 := by omega
    simp [hi, hi']
  · simp [hi]

/-- Claim C5: for operands `a`, `b` in [0, 32767] and a register index `r` in 0..7
of an eight-register bank, the add handler stores `(a + b) mod 32768` in
register `r` and the mult handler stores `(a * b) mod 32768`, sum and product
taken over the natural numbers; reading register `r` back gives that value,
and the 16-bit sum does not wrap. -/
theorem C5_add_mult_store (ctx : executionCtx) (hreg : ctx.reg.data.length = 8)
    (a b r : Nat) (ha : a ≤ 32767) (hb : b ≤ 32767) (hr : r < 8) :
    Inst_Add.Handle r a b ctx =
        (none, { ctx with reg := ⟨ctx.reg.data.set r ((a + b) % 32768)⟩ }) ∧
      Inst_Mult.Handle r a b ctx =
        (none, { ctx with reg := ⟨ctx.reg.data.set r ((a * b) % 32768)⟩ }) ∧
      (ctx.reg.data.set r ((a + b) % 32768)).getD r 0 = (a + b) % 32768 ∧
      (ctx.reg.data.set r ((a * b) % 32768)).getD r 0 = (a * b) % 32768 ∧
      toWord (a + b) = a + b := by
  have hs : toWord (a + b) % 32768 = (a + b) % 32768 := by unfold toWord; omega
  have hm : toWord (a * b) % 32768 = (a * b) % 32768 := by
    unfold toWord
    exact Nat.mod_mod_of_dvd _ (by norm_num)
  refine ⟨?_, ?_, ?_, ?_, ?_⟩
  · unfold Inst_Add.Handle
    rw [hs, regSet_ok ctx hreg r _ hr]
  · unfold Inst_Mult.Handle
    rw [hm, regSet_ok ctx hreg r _ hr]
  · simp [List.getD_eq_getElem, hreg, hr]
  · simp [List.getD_eq_getElem, hreg, hr]
  · unfold toWord
    omega

/-- Instance of claim C5 at `a = 32767`, `b = 2`, `r = 3`. -/
theorem C5_witness :
    Inst_Add.Handle 3 32767 2 (freshCtx [] []) =
        (none, { freshCtx [] [] with
          reg := ⟨(freshCtx [] []).reg.data.set 3 ((32767 + 2) % 32768)⟩ }) ∧
      Inst_Mult.Handle 3 32767 2 (freshCtx [] []) =
        (none, { freshCtx [] [] with
          reg := ⟨(freshCtx [] []).reg.data.set 3 ((32767 * 2) % 32768)⟩ }) ∧
      ((freshCtx [] []).reg.data.set 3 ((32767 + 2) % 32768)).getD 3 0 = (32767 + 2) % 32768 ∧
      ((freshCtx [] []).reg.data.set 3 ((32767 * 2) % 32768)).getD 3 0 = (32767 * 2) % 32768 ∧
      toWord (32767 + 2) = 32767 + 2 :=
  C5_add_mult_store (freshCtx [] []) rfl 32767 2 3 (by decide) (by decide) (by decide)

/-- Claim C6: for `v` in [0, 32767] the not handler stores `32767 - v`, which is
the 16-bit complement `65535 - v` reduced to 15 bits, and the not handler
applied to the stored value stores `v` again. -/
theorem C6_not_involution (ctx : executionCtx) (hreg : ctx.reg.data.length = 8)
    (r v : Nat) (hr : r < 8) (hv : v ≤ 32767) :
    ∃ c1 c2, Inst_Not.Handle r v ctx = (none, c1) ∧
      c1.reg.data.getD r 0 = 32767 - v ∧
      32767 - v = (65535 - v) % 32768 ∧
      Inst_Not.Handle r (c1.reg.data.getD r 0) c1 = (none, c2) ∧
      c2.reg.data.getD r 0 = v := by
  have hc1 : ({ ctx with reg := ⟨ctx.reg.data.set r (32767 - v)⟩ } : executionCtx).reg.data.length
      = 8 := by simp [hreg]
  have hg1 : (ctx.reg.data.set r (32767 - v)).getD r 0 = 32767 - v := by
    simp [List.getD_eq_getElem, hreg, hr]
  refine ⟨{ ctx with reg := ⟨ctx.reg.data.set r (32767 - v)⟩ },
    { ctx with reg := ⟨(ctx.reg.data.set r (32767 - v)).set r v⟩ }, ?_, hg1, by omega, ?_, ?_⟩
  · unfold Inst_Not.Handle
    rw [not_mask v hv, regSet_ok ctx hreg r _ hr]
  · unfold Inst_Not.Handle
    rw [hg1, not_mask (32767 - v) (by omega), regSet_ok _ hc1 r _ hr]
    have : 32767 - (32767 - v) = v := by omega
    rw [this]
  · simp [List.getD_eq_getElem, hreg, hr]

/-- Claim C7: with an eight-register bank, `value n` returns `n` for `n` in
[0, 32767], the content of register `n - 32768` for `n` in [32768, 32775], and
fails with the invalid-number error (kind InvalidOperand) for `n` of 32776 or
more. -/
theorem C7_value_resolves (ctx : executionCtx) (hreg : ctx.reg.data.length = 8) (n : Nat) :
    (n ≤ 32767 → value n ctx = .ok n) ∧
      (32768 ≤ n → n ≤ 32775 →
        value n ctx = ctx.reg.Get (n - 32768) ∧
        value n ctx = .ok (ctx.reg.data.getD (n - 32768) 0)) ∧
      (32776 ≤ n → value n ctx = .error (.invalidNumber n) ∧
        (Failure.invalidNumber n).kind = .InvalidOperand) := by
  refine ⟨?_, ?_, ?_⟩
  · intro h
    rw [value_ok ctx hreg n (by omega)]
    unfold operand
    rw [if_pos (by omega)]
  · intro h1 h2
    have hv : value n ctx = .ok (ctx.reg.data.getD (n - 32768) 0) := by
      rw [value_ok ctx hreg n (by omega)]
      unfold operand
      rw [if_neg (by omega)]
    refine ⟨?_, hv⟩
    rw [hv]
    unfold mainMemory.Get toWord
    rw [hreg, if_neg (by omega)]
  · intro h
    exact ⟨value_invalid ctx n h, rfl⟩

theorem reg_literal (n : Nat) (hn : n ≤ 32767) : reg n = n + 32768 := by
  unfold reg toWord OFFSET_REG
  omega

theorem takeBuffered_refused (ctx : executionCtx) (hreg : ctx.reg.data.length = 8) (r : Nat)
    (hr : 8 ≤ r) :
    ∃ e c, Inst_In.takeBuffered r ctx = (some e, c) ∧ c.reg = ctx.reg ∧
      e.kind ≠ .InvalidOperand := by
  unfold Inst_In.takeBuffered
  cases hb : ctx.inBuf with
  | nil => exact ⟨_, _, rfl, rfl, by simp [Failure.kind]⟩
  | cons ch rest =>
    refine ⟨_, _, regSet_fail _ (by simpa using hreg) r _ hr, rfl, by simp [Failure.kind]⟩

/-- Claim C8, amended: `reg` never fails.  For a destination word `n` in
[0, 32767] it returns `n + 32768`; when the two other operand words of the
window are at most 32775, an instruction with a destination operand and such a
destination word is decoded with destination index `n + 32768`, and its
handler, run on any context with an eight-register bank, either panics (mod by
zero) or returns a failure that is not of kind InvalidOperand, leaving every
register unchanged.  When one of the three operand words of the window, the
destination word included, is 32776 or more, the decoder panics with the
invalid-number error. -/
theorem C8_literal_destination (ctx ctx2 : executionCtx) (hreg : ctx.reg.data.length = 8)
    (hreg2 : ctx2.reg.data.length = 8) (a n c d : Nat) (ha : a ∈ destOpcodes) :
    (n ≤ 32767 → reg n = n + 32768 ∧
      (c < 32776 → d < 32776 →
        ∃ inst, NewInstruction [a, n, c, d] ctx = .returned (.ok inst) ∧
          inst.dest = some (n + 32768) ∧
          (inst.Handle ctx2 = .panicked .divideByZero ∨
            ∃ e c2, inst.Handle ctx2 = .returned (some e, c2) ∧ c2.reg = ctx2.reg ∧
              e.kind ≠ .InvalidOperand))) ∧
      (32776 ≤ n ∨ 32776 ≤ c ∨ 32776 ≤ d →
        ∃ m, 32776 ≤ m ∧
          NewInstruction [a, n, c, d] ctx = .panicked (.checkFailed (.invalidNumber m))) := by
  constructor
  · intro hn
    refine ⟨reg_literal n hn, ?_⟩
    intro hc hd
    have hr8 : 8 ≤ n + 32768 := by omega
    rw [NewInstruction_window ctx hreg, if_neg (by omega), if_neg (by omega),
      if_neg (by omega), reg_literal n hn]
    simp only [destOpcodes, List.mem_cons, List.mem_singleton, List.not_mem_nil, or_false] at ha
    rcases ha with rfl | rfl | rfl | rfl | rfl | rfl | rfl | rfl | rfl | rfl | rfl | rfl
    · exact ⟨_, rfl, rfl, Or.inr ⟨_, _, congrArg _ (regSet_fail ctx2 hreg2 _ _ hr8), rfl,
        by simp [Failure.kind]⟩⟩
    · refine ⟨_, rfl, rfl, Or.inr ?_⟩
      simp only [Instruction.Handle, Inst_Pop.Handle]
      cases hs : ctx2.stack with
      | nil => exact ⟨_, _, rfl, rfl, by simp [Failure.kind]⟩
      | cons t rest =>
        exact ⟨_, _, congrArg _ (regSet_fail _ (by simpa using hreg2) _ _ hr8), rfl, by simp [Failure.kind]⟩
    · exact ⟨_, rfl, rfl, Or.inr ⟨_, _, congrArg _ (regSet_fail ctx2 hreg2 _ _ hr8), rfl,
        by simp [Failure.kind]⟩⟩
    · exact ⟨_, rfl, rfl, Or.inr ⟨_, _, congrArg _ (regSet_fail ctx2 hreg2 _ _ hr8), rfl,
        by simp [Failure.kind]⟩⟩
    · exact ⟨_, rfl, rfl, Or.inr ⟨_, _, congrArg _ (regSet_fail ctx2 hreg2 _ _ hr8), rfl,
        by simp [Failure.kind]⟩⟩
    · exact ⟨_, rfl, rfl, Or.inr ⟨_, _, congrArg _ (regSet_fail ctx2 hreg2 _ _ hr8), rfl,
        by simp [Failure.kind]⟩⟩
    · refine ⟨_, rfl, rfl, ?_⟩
      simp only [Instruction.Handle, Inst_Mod.Handle]
      by_cases hz : operand ctx d = 0
      · exact Or.inl (by rw [if_pos hz])
      · exact Or.inr ⟨_, _, by rw [if_neg hz, regSet_fail ctx2 hreg2 _ _ hr8], rfl, by simp [Failure.kind]⟩
    · exact ⟨_, rfl, rfl, Or.inr ⟨_, _, congrArg _ (regSet_fail ctx2 hreg2 _ _ hr8), rfl,
        by simp [Failure.kind]⟩⟩
    · exact ⟨_, rfl, rfl, Or.inr ⟨_, _, congrArg _ (regSet_fail ctx2 hreg2 _ _ hr8), rfl,
        by simp [Failure.kind]⟩⟩
    · exact ⟨_, rfl, rfl, Or.inr ⟨_, _, congrArg _ (regSet_fail ctx2 hreg2 _ _ hr8), rfl,
        by simp [Failure.kind]⟩⟩
    · refine ⟨_, rfl, rfl, Or.inr ?_⟩
      simp only [Instruction.Handle, Inst_Rmem.Handle]
      cases hg : ctx2.mem.Get (operand ctx c) with
      | error e =>
        refine ⟨e, _, rfl, rfl, ?_⟩
        unfold mainMemory.Get at hg
        split at hg
        · cases hg; simp [Failure.kind]
        · cases hg
      | ok val =>
        exact ⟨_, _, congrArg _ (regSet_fail ctx2 hreg2 _ _ hr8), rfl, by simp [Failure.kind]⟩
    · refine ⟨_, rfl, rfl, Or.inr ?_⟩
      simp only [Instruction.Handle, Inst_In.Handle]
      by_cases hb : ctx2.inBuf.length < 1
      · rw [if_pos hb]
        rcases hrb : readBytes 10 [] ctx2.stdin with ⟨_ | input, left⟩
        · exact ⟨_, _, rfl, rfl, by simp [Failure.kind]⟩
        · obtain ⟨e, c2, h1, h2, h3⟩ := takeBuffered_refused
            { ctx2 with inBuf := input, stdin := left } (by simpa using hreg2) _ hr8
          exact ⟨e, c2, congrArg _ h1, h2, h3⟩
      · rw [if_neg hb]
        obtain ⟨e, c2, h1, h2, h3⟩ := takeBuffered_refused ctx2 hreg2 _ hr8
        exact ⟨e, c2, congrArg _ h1, h2, h3⟩
  · intro h
    rw [NewInstruction_window ctx hreg]
    by_cases hn : 32776 ≤ n
    · exact ⟨n, hn, by rw [if_pos hn]⟩
    · by_cases hc : 32776 ≤ c
      · exact ⟨c, hc, by rw [if_neg hn, if_pos hc]⟩
      · have hd : 32776 ≤ d := by omega
        exact ⟨d, hd, by rw [if_neg hn, if_neg hc, if_pos hd]⟩

theorem mainLoop_halted (fuel : Nat) (ctx : executionCtx) (h : ctx.running = false) :
    mainLoop fuel ctx = .returned ([], ctx) := by
  cases fuel with
  | zero => rfl
  | succ k => simp [mainLoop, h]

theorem reg_reference (i : Nat) (hi : i < 8) : reg (32768 + i) = i := by
  unfold reg toWord OFFSET_REG
  omega

theorem operand_literal (ctx : executionCtx) (v : Nat) (hv : v ≤ 32767) :
    operand ctx v = v := by
  unfold operand
  rw [if_pos (by omega)]

theorem executeNext_decoded (ctx : executionCtx) (hreg : ctx.reg.data.length = 8)
    (hwin : ctx.ip + 4 < toWord ctx.mem.data.length) (a b c d : Nat)
    (hw : windowAt ctx = [a, b, c, d]) (hb : b < 32776) (hc : c < 32776) (hd : d < 32776) :
    executeNext ctx =
      match lookup a (reg b) (operand ctx b) (operand ctx c) (operand ctx d) with
      | .error e => .returned (some e, ctx)
      | .ok inst =>
        match inst.Handle { ctx with ip := toWord (ctx.ip + inst.Len) } with
        | .panicked p => .panicked p
        | .returned (_, ctx') => .returned (none, ctx') := by
  rw [executeNext_window_ok ctx hwin, hw, NewInstruction_window ctx hreg,
    if_neg (by omega), if_neg (by omega), if_neg (by omega)]
  cases lookup a (reg b) (operand ctx b) (operand ctx c) (operand ctx d) <;> rfl

theorem setImage_first_cycle (i v : Nat) (input : List (List Nat)) (hi : i < 8)
    (hv : v ≤ 32767) :
    executeNext (freshCtx [1, 32768 + i, v, 0, 0, 0, 0, 0] input) =
      .returned (none,
        { ip := 3, mem := ⟨[1, 32768 + i, v, 0, 0, 0, 0, 0]⟩, stack := [],
          reg := ⟨(List.replicate 8 0).set i v⟩, running := true, inBuf := [],
          stdin := input, stdout := [] }) := by
  have hd := executeNext_decoded (freshCtx [1, 32768 + i, v, 0, 0, 0, 0, 0] input) rfl
    (by simp [freshCtx, toWord]) 1 (32768 + i) v 0 rfl (by omega) (by omega) (by omega)
  rw [hd, reg_reference i hi, operand_literal _ v hv]
  show Outcome.returned (none, (Inst_Set.Handle i v
    { freshCtx [1, 32768 + i, v, 0, 0, 0, 0, 0] input with ip := toWord (0 + 3) }).2) = _
  unfold Inst_Set.Handle
  rw [regSet_ok { freshCtx [1, 32768 + i, v, 0, 0, 0, 0, 0] input with ip := toWord (0 + 3) }
    rfl i v hi]
  rfl

theorem setImage_second_cycle (i v : Nat) (input : List (List Nat)) :
    executeNext
        { ip := 3, mem := ⟨[1, 32768 + i, v, 0, 0, 0, 0, 0]⟩, stack := [],
          reg := ⟨(List.replicate 8 0).set i v⟩, running := true, inBuf := [],
          stdin := input, stdout := [] } =
      .returned (none,
        { ip := 4, mem := ⟨[1, 32768 + i, v, 0, 0, 0, 0, 0]⟩, stack := [],
          reg := ⟨(List.replicate 8 0).set i v⟩, running := false, inBuf := [],
          stdin := input, stdout := [] }) := by
  have hd := executeNext_decoded
    { ip := 3, mem := ⟨[1, 32768 + i, v, 0, 0, 0, 0, 0]⟩, stack := [],
      reg := ⟨(List.replicate 8 0).set i v⟩, running := true, inBuf := [],
      stdin := input, stdout := [] }
    (by simp) (by simp [toWord]) 0 0 0 0 rfl (by omega) (by omega) (by omega)
  rw [hd]
  rfl

/-- Claim C9: for `i` in 0..7 and `v` in [0, 32767], the run of the image
`[1, 32768 + i, v, 0, 0, 0, 0, 0]` from the fresh context ends after two cycles
with `running = false`, no error printed, register `i` equal to `v` and every
other register equal to 0; more fuel does not change the result. -/
theorem C9_set_then_halt (i v fuel : Nat) (input : List (List Nat)) (hi : i < 8)
    (hv : v ≤ 32767) (hfuel : 2 ≤ fuel) :
    mainLoop fuel (freshCtx [1, 32768 + i, v, 0, 0, 0, 0, 0] input) =
      .returned ([],
        { ip := 4, mem := ⟨[1, 32768 + i, v, 0, 0, 0, 0, 0]⟩, stack := [],
          reg := ⟨(List.replicate 8 0).set i v⟩, running := false, inBuf := [],
          stdin := input, stdout := [] }) ∧
      ((List.replicate 8 0).set i v).getD i 0 = v ∧
      ∀ j, j ≠ i → ((List.replicate 8 0).set i v).getD j 0 = 0 := by
  refine ⟨?_, ?_, ?_⟩
  · obtain ⟨k, rfl⟩ : ∃ k, fuel = k + 2 := ⟨fuel - 2, by omega⟩
    have hrun : (freshCtx [1, 32768 + i, v, 0, 0, 0, 0, 0] input).running = true := rfl
    rw [mainLoop, if_pos hrun, loopBody, setImage_first_cycle i v input hi hv]
    simp only
    rw [mainLoop, if_pos rfl, loopBody, setImage_second_cycle i v input]
    simp only
    rw [mainLoop_halted k _ rfl]
    rfl
  · rw [List.getD_eq_getElem?_getD, List.getElem?_set_self (by simpa using hi)]
    rfl
  · intro j hj
    rw [List.getD_eq_getElem?_getD, List.getElem?_set_ne (Ne.symm hj), List.getElem?_replicate]
    split <;> rfl

/-- Instance of claim C9 at `i = 0`, `v = 5`: the scenario of the specification. -/
theorem C9_witness :
    mainLoop 2 (freshCtx [1, 32768 + 0, 5, 0, 0, 0, 0, 0] []) =
      .returned ([],
        { ip := 4, mem := ⟨[1, 32768 + 0, 5, 0, 0, 0, 0, 0]⟩, stack := [],
          reg := ⟨(List.replicate 8 0).set 0 5⟩, running := false, inBuf := [],
          stdin := [], stdout := [] }) ∧
      ((List.replicate 8 0).set 0 5).getD 0 0 = 5 ∧
      ∀ j, j ≠ 0 → ((List.replicate 8 0).set 0 5).getD j 0 = 0 :=
  C9_set_then_halt 0 5 2 [] (by decide) (by decide) (by decide)

/-- Claim C10: from an empty stack, after push `a` and push `b`, pop into `r1`
stores `b`, the next pop into `r2` stores `a`, and a third pop fails with
"stack is empty" (kind EmptyStack) and leaves the context, its registers
included, unchanged. -/
theorem C10_stack_lifo (ctx : executionCtx) (hreg : ctx.reg.data.length = 8)
    (hstack : ctx.stack = []) (a b r1 r2 r3 : Nat) (h1 : r1 < 8) (h2 : r2 < 8) :
    ∃ c2 c3 c4,
      Inst_Push.Handle b (Inst_Push.Handle a ctx).2 = (none, c2) ∧
      c2.reg = ctx.reg ∧
      Inst_Pop.Handle r1 c2 = (none, c3) ∧
      c3.reg = ⟨c2.reg.data.set r1 b⟩ ∧
      Inst_Pop.Handle r2 c3 = (none, c4) ∧
      c4.reg = ⟨c3.reg.data.set r2 a⟩ ∧
      Inst_Pop.Handle r3 c4 = (some .stackEmpty, c4) ∧
      Failure.stackEmpty.kind = .EmptyStack := by
  have e1 : ({ ctx with stack := [a] } : executionCtx).reg.data.length = 8 := hreg
  have e2 : ({ ctx with stack := [], reg := ⟨ctx.reg.data.set r1 b⟩ } :
      executionCtx).reg.data.length = 8 := by simp [hreg]
  refine ⟨{ ctx with stack := [b, a] },
    { ctx with stack := [a], reg := ⟨ctx.reg.data.set r1 b⟩ },
    { ctx with stack := [], reg := ⟨(ctx.reg.data.set r1 b).set r2 a⟩ },
    ?_, rfl, ?_, rfl, ?_, rfl, rfl, rfl⟩
  · simp [Inst_Push.Handle, hstack]
  · simp only [Inst_Pop.Handle]
    rw [regSet_ok { ctx with stack := [a] } e1 r1 b h1]
  · simp only [Inst_Pop.Handle]
    rw [regSet_ok { ctx with stack := [], reg := ⟨ctx.reg.data.set r1 b⟩ } e2 r2 a h2]

/-- Instance of claim C10 at `a = 7`, `b = 9`, registers 0, 1, 2. -/
theorem C10_witness :
    ∃ c2 c3 c4,
      Inst_Push.Handle 9 (Inst_Push.Handle 7 (freshCtx [] [])).2 = (none, c2) ∧
      c2.reg = (freshCtx [] []).reg ∧
      Inst_Pop.Handle 0 c2 = (none, c3) ∧
      c3.reg = ⟨c2.reg.data.set 0 9⟩ ∧
      Inst_Pop.Handle 1 c3 = (none, c4) ∧
      c4.reg = ⟨c3.reg.data.set 1 7⟩ ∧
      Inst_Pop.Handle 2 c4 = (some .stackEmpty, c4) ∧
      Failure.stackEmpty.kind = .EmptyStack :=
  C10_stack_lifo (freshCtx [] []) rfl rfl 7 9 0 1 2 (by decide) (by decide)

/-- Claim C4, evaluated on the four-word image `[0, 0, 0, 0]` at `ip = 0`: the
window `[0, 4)` lies inside `[0, 4)`, yet `GetRange(0, 4)` returns the
out-of-bounds error, and the loop halts with that failure instead of running
the `halt` stored at address 0. -/
theorem C4_last_window_refused :
    (freshCtx [0, 0, 0, 0] []).ip + 4 ≤ (freshCtx [0, 0, 0, 0] []).mem.Len ∧
      (freshCtx [0, 0, 0, 0] []).mem.GetRange 0 (toWord (0 + 4)) =
        .error (.addressesOutOfBounds 0 4) ∧
      loopBody (freshCtx [0, 0, 0, 0] []) =
        .returned (some (.addressesOutOfBounds 0 4),
          { freshCtx [0, 0, 0, 0] [] with running := false }) :=
  ⟨by decide, rfl, rfl⟩

theorem WritesInRange.refl (m : mainMemory) : WritesInRange m m :=
  ⟨rfl, fun _ => Or.inl rfl⟩

theorem WritesInRange.trans {m1 m2 m3 : mainMemory} (h12 : WritesInRange m1 m2)
    (h23 : WritesInRange m2 m3) : WritesInRange m1 m3 := by
  refine ⟨h23.1.trans h12.1, fun a => ?_⟩
  rcases h23.2 a with h | h
  · rcases h12.2 a with h' | h'
    · exact Or.inl (h.trans h')
    · exact Or.inr (h ▸ h')
  · exact Or.inr h

theorem mem_set_le (l : List Nat) (r v : Nat) (hl : ∀ x ∈ l, x ≤ 32767) (hv : v ≤ 32767) :
    ∀ x ∈ l.set r v, x ≤ 32767 := by
  intro x hx
  rcases List.mem_or_eq_of_mem_set hx with h | h
  · exact hl x h
  · exact h ▸ hv

theorem returnRegSet_inv (c : executionCtx) (hinv : ValuesInRange c) (r v : Nat)
    (hv : v ≤ 32767) :
    ValuesInRange (returnRegSet c r v).2 ∧ (returnRegSet c r v).2.mem = c.mem ∧
      (returnRegSet c r v).2.running = c.running := by
  unfold returnRegSet mainMemory.Set
  split_ifs with h
  · exact ⟨hinv, rfl, rfl⟩
  · refine ⟨⟨?_, ?_, hinv.stack, hinv.buffered, hinv.pending⟩, rfl, rfl⟩
    · simpa using hinv.bank
    · exact mem_set_le _ _ _ hinv.regs hv

theorem takeThrough_subset (d : Nat) (l : List Nat) : ∀ b ∈ takeThrough d l, b ∈ l := by
  induction l with
  | nil => intro b hb; simp [takeThrough] at hb
  | cons x rest ih =>
    intro b hb
    unfold takeThrough at hb
    split_ifs at hb with h
    · simp only [List.mem_singleton] at hb
      exact hb ▸ List.mem_cons_self _ _
    · rcases List.mem_cons.mp hb with h1 | h1
      · exact h1 ▸ List.mem_cons_self _ _
      · exact List.mem_cons_of_mem _ (ih b h1)

theorem readBytes_bytes (d : Nat) (chunks : List (List Nat)) :
    ∀ held : List Nat, (∀ b ∈ held, b ≤ 255) → (∀ chunk ∈ chunks, ∀ b ∈ chunk, b ≤ 255) →
      (∀ input, (readBytes d held chunks).1 = some input → ∀ b ∈ input, b ≤ 255) ∧
      ∀ chunk ∈ (readBytes d held chunks).2, ∀ b ∈ chunk, b ≤ 255 := by
  induction chunks with
  | nil =>
    intro held _ _
    simp [readBytes]
  | cons c rest ih =>
    intro held hh hc
    have hbuf : ∀ b ∈ held ++ c, b ≤ 255 := by
      intro b hb
      rcases List.mem_append.mp hb with h | h
      · exact hh b h
      · exact hc c (List.mem_cons_self _ _) b h
    have hrest : ∀ chunk ∈ rest, ∀ b ∈ chunk, b ≤ 255 :=
      fun chunk hch => hc chunk (List.mem_cons_of_mem _ hch)
    unfold readBytes
    split_ifs with h
    · refine ⟨?_, hrest⟩
      intro input hi b hb
      simp only [Option.some.injEq] at hi
      subst hi
      exact hbuf b (takeThrough_subset d _ b hb)
    · exact ih (held ++ c) hbuf hrest

theorem bytesToWord_byte (b : Nat) (hb : b ≤ 255) : bytesToWord b 0 ≤ 32767 := by
  unfold bytesToWord toWord
  simp only [Nat.zero_shiftLeft, Nat.zero_mod, Nat.or_zero]
  omega

theorem takeBuffered_inv (r : Nat) (c : executionCtx) (hinv : ValuesInRange c) :
    ValuesInRange (Inst_In.takeBuffered r c).2 ∧ (Inst_In.takeBuffered r c).2.mem = c.mem := by
  unfold Inst_In.takeBuffered
  cases hb : c.inBuf with
  | nil => exact ⟨hinv, rfl⟩
  | cons ch rest =>
    have hch : ch ≤ 255 := hinv.buffered ch (by rw [hb]; exact List.mem_cons_self _ _)
    have hinv' : ValuesInRange { c with inBuf := rest } :=
      ⟨hinv.bank, hinv.regs, hinv.stack,
        fun b hb' => hinv.buffered b (by rw [hb]; exact List.mem_cons_of_mem _ hb'),
        hinv.pending⟩
    obtain ⟨h1, h2, -⟩ := returnRegSet_inv _ hinv' r _ (bytesToWord_byte ch hch)
    exact ⟨h1, h2⟩

theorem regSet_step (c : executionCtx) (hinv : ValuesInRange c) (r v : Nat) (hv : v ≤ 32767)
    (e : Option Failure) (c' : executionCtx)
    (h : Outcome.returned (returnRegSet c r v) = Outcome.returned (e, c')) :
    ValuesInRange c' ∧ WritesInRange c.mem c'.mem := by
  obtain ⟨h1, h2, -⟩ := returnRegSet_inv c hinv r v hv
  have hc : (returnRegSet c r v).2 = c' := by
    injection h with h
    rw [h]
  rw [← hc, h2]
  exact ⟨h1, WritesInRange.refl _⟩

theorem Set_writes (m m' : mainMemory) (a v : Nat) (hv : v ≤ 32767)
    (h : m.Set a v = .ok m') : WritesInRange m m' := by
  unfold mainMemory.Set at h
  split_ifs at h
  injection h with h
  subst h
  refine ⟨by simp, fun i => ?_⟩
  by_cases hi : a = i
  · subst hi
    by_cases hlen : a < m.data.length
    · right
      simp [List.getD_eq_getElem?_getD, List.getElem?_set_self hlen, hv]
    · left
      rw [List.set_eq_of_length_le (Nat.le_of_not_lt hlen)]
  · left
    simp [List.getD_eq_getElem?_getD, List.getElem?_set_ne hi]

theorem Handle_inv (inst : Instruction) (c : executionCtx) (hinv : ValuesInRange c)
    (hip : c.ip ≤ 32767) (hvals : inst.valuesInRange) (hload : inst.loadsInRange c)
    (e : Option Failure) (c' : executionCtx) (h : inst.Handle c = .returned (e, c')) :
    ValuesInRange c' ∧ WritesInRange c.mem c'.mem := by
  cases inst with
  | Inst_Halt =>
    cases h
    exact ⟨⟨hinv.bank, hinv.regs, hinv.stack, hinv.buffered, hinv.pending⟩, WritesInRange.refl _⟩
  | Inst_Set r v => exact regSet_step c hinv r v hvals e c' h
  | Inst_Push v =>
    cases h
    refine ⟨⟨hinv.bank, hinv.regs, ?_, hinv.buffered, hinv.pending⟩, WritesInRange.refl _⟩
    intro x hx
    rcases List.mem_cons.mp hx with h1 | h1
    · exact h1 ▸ hvals
    · exact hinv.stack x h1
  | Inst_Pop r =>
    simp only [Instruction.Handle, Inst_Pop.Handle] at h
    cases hs : c.stack with
    | nil =>
      rw [hs] at h
      cases h
      exact ⟨hinv, WritesInRange.refl _⟩
    | cons t rest =>
      rw [hs] at h
      have ht : t ≤ 32767 := hinv.stack t (by rw [hs]; exact List.mem_cons_self _ _)
      have hinv' : ValuesInRange { c with stack := rest } :=
        ⟨hinv.bank, hinv.regs,
          fun x hx => hinv.stack x (by rw [hs]; exact List.mem_cons_of_mem _ hx),
          hinv.buffered, hinv.pending⟩
      exact regSet_step _ hinv' r t ht e c' h
  | Inst_Eq r a b =>
    refine regSet_step c hinv r _ ?_ e c' h
    split <;> omega
  | Inst_Gt r a b =>
    refine regSet_step c hinv r _ ?_ e c' h
    split <;> omega
  | Inst_Jmp t =>
    cases h
    exact ⟨⟨hinv.bank, hinv.regs, hinv.stack, hinv.buffered, hinv.pending⟩, WritesInRange.refl _⟩
  | Inst_Jt cnd t =>
    simp only [Instruction.Handle, Inst_Jt.Handle] at h
    split_ifs at h <;> cases h <;>
      exact ⟨⟨hinv.bank, hinv.regs, hinv.stack, hinv.buffered, hinv.pending⟩,
        WritesInRange.refl _⟩
  | Inst_Jf cnd t =>
    simp only [Instruction.Handle, Inst_Jf.Handle] at h
    split_ifs at h <;> cases h <;>
      exact ⟨⟨hinv.bank, hinv.regs, hinv.stack, hinv.buffered, hinv.pending⟩,
        WritesInRange.refl _⟩
  | Inst_Add r a b =>
    refine regSet_step c hinv r _ ?_ e c' h
    exact Nat.le_of_lt_succ (Nat.mod_lt _ (by norm_num))
  | Inst_Mult r a b =>
    refine regSet_step c hinv r _ ?_ e c' h
    exact Nat.le_of_lt_succ (Nat.mod_lt _ (by norm_num))
  | Inst_Mod r a b =>
    simp only [Instruction.Handle, Inst_Mod.Handle] at h
    split_ifs at h
    exact regSet_step c hinv r _ (le_trans (Nat.mod_le _ _) hvals.1) e c' h
  | Inst_And r a b =>
    exact regSet_step c hinv r _ (le_trans Nat.and_le_left hvals.1) e c' h
  | Inst_Or r a b =>
    refine regSet_step c hinv r _ ?_ e c' h
    have ha : a < 2 ^ 15 := by have := hvals.1; norm_num; omega
    have hb : b < 2 ^ 15 := by have := hvals.2; norm_num; omega
    have := Nat.or_lt_two_pow ha hb
    norm_num at this
    omega
  | Inst_Not r a =>
    exact regSet_step c hinv r _ Nat.and_le_right e c' h
  | Inst_Rmem r a =>
    simp only [Instruction.Handle, Inst_Rmem.Handle] at h
    cases hg : c.mem.Get a with
    | error err =>
      rw [hg] at h
      cases h
      exact ⟨hinv, WritesInRange.refl _⟩
    | ok val =>
      rw [hg] at h
      have hval : val ≤ 32767 := by
        unfold mainMemory.Get at hg
        split_ifs at hg
        injection hg with hg
        exact hg ▸ hload
      exact regSet_step c hinv r val hval e c' h
  | Inst_Wmem a v =>
    simp only [Instruction.Handle, Inst_Wmem.Handle] at h
    cases hs : c.mem.Set a v with
    | error err =>
      rw [hs] at h
      cases h
      exact ⟨hinv, WritesInRange.refl _⟩
    | ok m =>
      rw [hs] at h
      cases h
      exact ⟨⟨hinv.bank, hinv.regs, hinv.stack, hinv.buffered, hinv.pending⟩,
        Set_writes _ _ a v hvals.2 hs⟩
  | Inst_Call a =>
    cases h
    refine ⟨⟨hinv.bank, hinv.regs, ?_, hinv.buffered, hinv.pending⟩, WritesInRange.refl _⟩
    intro x hx
    rcases List.mem_cons.mp hx with h1 | h1
    · exact h1 ▸ hip
    · exact hinv.stack x h1
  | Inst_Ret =>
    simp only [Instruction.Handle, Inst_Ret.Handle] at h
    cases hs : c.stack with
    | nil =>
      rw [hs] at h
      cases h
      exact ⟨hinv, WritesInRange.refl _⟩
    | cons t rest =>
      rw [hs] at h
      cases h
      exact ⟨⟨hinv.bank, hinv.regs,
        fun x hx => hinv.stack x (by rw [hs]; exact List.mem_cons_of_mem _ hx),
        hinv.buffered, hinv.pending⟩, WritesInRange.refl _⟩
  | Inst_Out ch =>
    cases h
    exact ⟨⟨hinv.bank, hinv.regs, hinv.stack, hinv.buffered, hinv.pending⟩, WritesInRange.refl _⟩
  | Inst_In r =>
    simp only [Instruction.Handle, Inst_In.Handle] at h
    have hrb := readBytes_bytes 10 c.stdin [] (by simp) hinv.pending
    split_ifs at h with hb
    · rcases hr : readBytes 10 [] c.stdin with ⟨_ | input, left⟩
      · rw [hr] at h hrb
        cases h
        exact ⟨⟨hinv.bank, hinv.regs, hinv.stack, by simp, hrb.2⟩, WritesInRange.refl _⟩
      · rw [hr] at h hrb
        simp only at h
        have hinv' : ValuesInRange { c with inBuf := input, stdin := left } :=
          ⟨hinv.bank, hinv.regs, hinv.stack, hrb.1 input rfl, hrb.2⟩
        obtain ⟨h1, h2⟩ := takeBuffered_inv r _ hinv'
        injection h with h
        have hc : (Inst_In.takeBuffered r { c with inBuf := input, stdin := left }).2 = c' := by
          rw [h]
        rw [← hc, h2]
        exact ⟨h1, WritesInRange.refl _⟩
    · obtain ⟨h1, h2⟩ := takeBuffered_inv r c hinv
      injection h with h
      have hc : (Inst_In.takeBuffered r c).2 = c' := by rw [h]
      rw [← hc, h2]
      exact ⟨h1, WritesInRange.refl _⟩
  | Inst_Noop =>
    cases h
    exact ⟨hinv, WritesInRange.refl _⟩

theorem operand_le (ctx : executionCtx) (hinv : ValuesInRange ctx) (x : Nat)
    (hx : x < 32776) : operand ctx x ≤ 32767 := by
  unfold operand
  split_ifs with h
  · omega
  · have hi : x - 32768 < ctx.reg.data.length := by rw [hinv.bank]; omega
    rw [List.getD_eq_getElem _ _ hi]
    exact hinv.regs _ (List.getElem_mem _)

theorem Len_le (inst : Instruction) : inst.Len ≤ 4 := by
  cases inst <;> simp [Instruction.Len]

theorem lookup_values (a r x y z : Nat) (inst : Instruction)
    (h : lookup a r x y z = .ok inst) (hx : x ≤ 32767) (hy : y ≤ 32767) (hz : z ≤ 32767) :
    inst.valuesInRange ∧ (a = 15 → inst = .Inst_Rmem r y) ∧
      (a ≠ 15 → ∀ ctx, inst.loadsInRange ctx) := by
  by_cases ha : 22 ≤ a
  · rw [lookup_unknown a r x y z ha] at h
    cases h
  · have ha' : a < 22 := by omega
    interval_cases a <;> simp only [lookup] at h <;> cases h <;>
      simp [Instruction.valuesInRange, Instruction.loadsInRange, hx, hy, hz]

theorem loopBody_inv (ctx : executionCtx) (hinv : ValuesInRange ctx)
    (hlen : ctx.mem.data.length ≤ 32768) (hraw : rawLoad ctx = false)
    (e : Option Failure) (ctx' : executionCtx) (h : loopBody ctx = .returned (e, ctx')) :
    ValuesInRange ctx' ∧ WritesInRange ctx.mem ctx'.mem := by
  unfold loopBody at h
  unfold rawLoad at hraw
  simp only [decide_eq_false_iff_not, not_and, not_lt] at hraw
  by_cases hwin : ctx.ip + 4 < toWord ctx.mem.data.length
  · have hw : windowAt ctx = [(windowAt ctx).getD 0 0, (windowAt ctx).getD 1 0,
        (windowAt ctx).getD 2 0, (windowAt ctx).getD 3 0] := rfl
    generalize (windowAt ctx).getD 0 0 = a at hw hraw
    generalize (windowAt ctx).getD 1 0 = b at hw hraw
    generalize (windowAt ctx).getD 2 0 = c at hw hraw
    generalize (windowAt ctx).getD 3 0 = d at hw hraw
    by_cases hops : b < 32776 ∧ c < 32776 ∧ d < 32776
    · obtain ⟨hb, hc, hd⟩ := hops
      rw [executeNext_decoded ctx hinv.bank hwin a b c d hw hb hc hd] at h
      cases hl : lookup a (reg b) (operand ctx b) (operand ctx c) (operand ctx d) with
      | error err =>
        rw [hl] at h
        cases h
        exact ⟨⟨hinv.bank, hinv.regs, hinv.stack, hinv.buffered, hinv.pending⟩,
          WritesInRange.refl _⟩
      | ok inst =>
        rw [hl] at h
        simp only at h
        obtain ⟨hv, h15, hn15⟩ := lookup_values _ _ _ _ _ _ hl (operand_le ctx hinv b hb)
          (operand_le ctx hinv c hc) (operand_le ctx hinv d hd)
        have hword : ctx.mem.data.length % 65536 ≤ ctx.mem.data.length := Nat.mod_le _ _
        have hL := Len_le inst
        have hip : toWord (ctx.ip + inst.Len) ≤ 32767 := by
          unfold toWord at hwin ⊢
          omega
        have hinv1 : ValuesInRange { ctx with ip := toWord (ctx.ip + inst.Len) } :=
          ⟨hinv.bank, hinv.regs, hinv.stack, hinv.buffered, hinv.pending⟩
        have hload : inst.loadsInRange { ctx with ip := toWord (ctx.ip + inst.Len) } := by
          by_cases ha : a = 15
          · rw [h15 ha]
            show ctx.mem.data.getD (operand ctx c) 0 ≤ 32767
            exact hraw hwin ha
          · exact hn15 ha _
        cases hh : inst.Handle { ctx with ip := toWord (ctx.ip + inst.Len) } with
        | panicked p =>
          rw [hh] at h
          cases h
        | returned res =>
          obtain ⟨e1, c2⟩ := res
          rw [hh] at h
          cases h
          exact Handle_inv inst _ hinv1 hip hv hload e1 _ hh
    · exfalso
      rw [executeNext_window_ok ctx hwin, hw, NewInstruction_window ctx hinv.bank] at h
      by_cases hb : 32776 ≤ b
      · rw [if_pos hb] at h
        cases h
      · by_cases hc : 32776 ≤ c
        · rw [if_neg hb, if_pos hc] at h
          cases h
        · have hd : 32776 ≤ d := by
            by_contra hd
            exact hops ⟨by omega, by omega, by omega⟩
          rw [if_neg hb, if_neg hc, if_pos hd] at h
          cases h
  · obtain ⟨e0, he, -⟩ := executeNext_window_fail ctx hwin
    rw [he] at h
    cases h
    exact ⟨⟨hinv.bank, hinv.regs, hinv.stack, hinv.buffered, hinv.pending⟩,
      WritesInRange.refl _⟩

theorem mainLoop_inv (fuel : Nat) :
    ∀ c0 : executionCtx, ValuesInRange c0 → c0.mem.data.length ≤ 32768 →
      (∀ k es c, k < fuel → mainLoop k c0 = .returned (es, c) → c.running = true →
        rawLoad c = false) →
      ∀ es ctx, mainLoop fuel c0 = .returned (es, ctx) →
        ValuesInRange ctx ∧ WritesInRange c0.mem ctx.mem := by
  induction fuel with
  | zero =>
    intro c0 hinv _ _ es ctx h
    cases h
    exact ⟨hinv, WritesInRange.refl _⟩
  | succ n ih =>
    intro c0 hinv hlen hraw es ctx h
    rw [mainLoop] at h
    by_cases hrun : c0.running = true
    · rw [if_pos hrun] at h
      have hraw0 : rawLoad c0 = false := hraw 0 [] c0 (Nat.succ_pos n) rfl hrun
      cases hb : loopBody c0 with
      | panicked p =>
        rw [hb] at h
        cases h
      | returned res =>
        obtain ⟨e, c1⟩ := res
        rw [hb] at h
        simp only at h
        obtain ⟨hinv1, hw1⟩ := loopBody_inv c0 hinv hlen hraw0 e c1 hb
        cases hm : mainLoop n c1 with
        | panicked p =>
          rw [hm] at h
          cases h
        | returned res2 =>
          obtain ⟨es2, c2⟩ := res2
          rw [hm] at h
          cases h
          have hraw1 : ∀ k es c, k < n → mainLoop k c1 = .returned (es, c) →
              c.running = true → rawLoad c = false := by
            intro k es' c hk hk1 hcr
            refine hraw (k + 1) (e.toList ++ es') c (Nat.succ_lt_succ hk) ?_ hcr
            rw [mainLoop, if_pos hrun, hb]
            simp only
            rw [hk1]
          obtain ⟨hinv2, hw2⟩ := ih c1 hinv1 (hw1.1 ▸ hlen) hraw1 _ _ hm
          exact ⟨hinv2, hw1.trans hw2⟩
    · rw [if_neg hrun] at h
      cases h
      exact ⟨hinv, WritesInRange.refl _⟩

theorem freshCtx_inv (image : List Nat) (input : List (List Nat))
    (hin : ∀ chunk ∈ input, ∀ b ∈ chunk, b ≤ 255) : ValuesInRange (freshCtx image input) := by
  refine ⟨rfl, ?_, ?_, ?_, hin⟩
  · intro v hv
    have : v = 0 := List.eq_of_mem_replicate hv
    omega
  · intro v hv
    cases hv
  · intro v hv
    cases hv

/-- Claim C3 fails as stated: on the image `[15, 32768, 7, 0, 0, 0, 0, 40000]`,
all of whose words are 16-bit, the first cycle is `rmem` of cell 7 into
register 0, and register 0 then holds 40000. -/
theorem C3_counterexample :
    ¬ (∀ (image : List Nat) (input : List (List Nat)) (fuel : Nat) (es : List Failure)
        (ctx : executionCtx), (∀ w ∈ image, w < 65536) →
        mainLoop fuel (freshCtx image input) = .returned (es, ctx) →
        ∀ v ∈ ctx.reg.data, v ≤ 32767) := by
  intro h
  have h1 := h [15, 32768, 7, 0, 0, 0, 0, 40000] [] 1 []
    { freshCtx [15, 32768, 7, 0, 0, 0, 0, 40000] [] with
      ip := 3, reg := ⟨[40000, 0, 0, 0, 0, 0, 0, 0]⟩ }
    (by decide) rfl 40000 (by decide)
  omega

/-- Claim C3, amended: for an image of at most 32768 words, input made of bytes,
and a run in which no executed cycle is an `rmem` of a cell holding a word
above 32767, every context the main loop reaches has all registers and all
stack entries in [0, 32767], and each memory cell either still holds the
image's word or holds a value in [0, 32767]; the memory length is unchanged. -/
theorem C3_values_in_range (image : List Nat) (input : List (List Nat)) (fuel : Nat)
    (es : List Failure) (ctx : executionCtx) (hlen : image.length ≤ 32768)
    (hin : ∀ chunk ∈ input, ∀ b ∈ chunk, b ≤ 255)
    (hraw : ∀ k es' c, k < fuel → mainLoop k (freshCtx image input) = .returned (es', c) →
      c.running = true → rawLoad c = false)
    (h : mainLoop fuel (freshCtx image input) = .returned (es, ctx)) :
    (∀ v ∈ ctx.reg.data, v ≤ 32767) ∧ (∀ v ∈ ctx.stack, v ≤ 32767) ∧
      ctx.mem.data.length = image.length ∧
      ∀ a, ctx.mem.data.getD a 0 = image.getD a 0 ∨ ctx.mem.data.getD a 0 ≤ 32767 := by
  obtain ⟨hinv, hw⟩ := mainLoop_inv fuel (freshCtx image input) (freshCtx_inv image input hin)
    hlen hraw es ctx h
  exact ⟨hinv.regs, hinv.stack, hw.1, hw.2⟩

/-- Instance of the amended claim C2 on the image `[21, 32776, 0, 0, 0]`. -/
theorem C2_witness :
    (∃ c, executeNext (freshCtx [21, 32776, 0, 0, 0] []) = .panicked c) ↔
      ∃ w, (freshCtx [21, 32776, 0, 0, 0] []).mem.GetRange (freshCtx [21, 32776, 0, 0, 0] []).ip
          (toWord ((freshCtx [21, 32776, 0, 0, 0] []).ip + 4)) = .ok w ∧
        (32776 ≤ w.getD 1 0 ∨ 32776 ≤ w.getD 2 0 ∨ 32776 ≤ w.getD 3 0 ∨
          (w.getD 0 0 = 11 ∧ value (w.getD 3 0) (freshCtx [21, 32776, 0, 0, 0] []) = .ok 0)) :=
  C2_executeNext_panics_iff (freshCtx [21, 32776, 0, 0, 0] []) rfl

/-- Instance of the amended claim C3 on the run of `[1, 32768, 5, 0, 0, 0, 0, 0]`. -/
theorem C3_witness :
    (∀ v ∈ [5, 0, 0, 0, 0, 0, 0, 0], v ≤ 32767) ∧ (∀ v ∈ ([] : List Nat), v ≤ 32767) ∧
      [1, 32768, 5, 0, 0, 0, 0, 0].length = [1, 32768, 5, 0, 0, 0, 0, 0].length ∧
      ∀ a, [1, 32768, 5, 0, 0, 0, 0, 0].getD a 0 = [1, 32768, 5, 0, 0, 0, 0, 0].getD a 0 ∨
        [1, 32768, 5, 0, 0, 0, 0, 0].getD a 0 ≤ 32767 :=
  C3_values_in_range [1, 32768, 5, 0, 0, 0, 0, 0] [] 2 []
    { ip := 4, mem := ⟨[1, 32768, 5, 0, 0, 0, 0, 0]⟩, stack := [],
      reg := ⟨[5, 0, 0, 0, 0, 0, 0, 0]⟩, running := false, inBuf := [],
      stdin := [], stdout := [] }
    (by decide) (by simp)
    (by
      intro k es' c hk hm _
      interval_cases k
      · have h0 : mainLoop 0 (freshCtx [1, 32768, 5, 0, 0, 0, 0, 0] []) =
            .returned ([], freshCtx [1, 32768, 5, 0, 0, 0, 0, 0] []) := rfl
        rw [h0] at hm
        cases hm
        rfl
      · have h1 : mainLoop 1 (freshCtx [1, 32768, 5, 0, 0, 0, 0, 0] []) =
            .returned ([], { freshCtx [1, 32768, 5, 0, 0, 0, 0, 0] [] with
              ip := 3, reg := ⟨[5, 0, 0, 0, 0, 0, 0, 0]⟩ }) := rfl
        rw [h1] at hm
        cases hm
        rfl)
    rfl

/-- Instance of claim C6 at `v = 5`, register 0. -/
theorem C6_witness :
    ∃ c1 c2, Inst_Not.Handle 0 5 (freshCtx [] []) = (none, c1) ∧
      c1.reg.data.getD 0 0 = 32767 - 5 ∧
      32767 - 5 = (65535 - 5) % 32768 ∧
      Inst_Not.Handle 0 (c1.reg.data.getD 0 0) c1 = (none, c2) ∧
      c2.reg.data.getD 0 0 = 5 :=
  C6_not_involution (freshCtx [] []) rfl 0 5 (by decide) (by decide)

/-- Instance of claim C7 at `n = 32770`. -/
theorem C7_witness :
    (32770 ≤ 32767 → value 32770 (freshCtx [] []) = .ok 32770) ∧
      (32768 ≤ 32770 → 32770 ≤ 32775 →
        value 32770 (freshCtx [] []) = (freshCtx [] []).reg.Get (32770 - 32768) ∧
        value 32770 (freshCtx [] []) =
          .ok ((freshCtx [] []).reg.data.getD (32770 - 32768) 0)) ∧
      (32776 ≤ 32770 → value 32770 (freshCtx [] []) = .error (.invalidNumber 32770) ∧
        (Failure.invalidNumber 32770).kind = .InvalidOperand) :=
  C7_value_resolves (freshCtx [] []) rfl 32770

/-- Instance of the amended claim C8: the window `[1, 5, 7, 0]` (set with the
literal 5 as destination) is decoded and refused by the register bank; the
window `[3, 5, 40000, 0]` makes the decoder panic. -/
theorem C8_witness :
    (reg 5 = 5 + 32768 ∧
      ∃ inst, NewInstruction [1, 5, 7, 0] (freshCtx [] []) = .returned (.ok inst) ∧
        inst.dest = some (5 + 32768) ∧
        (inst.Handle (freshCtx [] []) = .panicked .divideByZero ∨
          ∃ e c2, inst.Handle (freshCtx [] []) = .returned (some e, c2) ∧
            c2.reg = (freshCtx [] []).reg ∧ e.kind ≠ .InvalidOperand)) ∧
      ∃ m, 32776 ≤ m ∧
        NewInstruction [3, 5, 40000, 0] (freshCtx [] []) =
          .panicked (.checkFailed (.invalidNumber m)) :=
  ⟨⟨((C8_literal_destination (freshCtx [] []) (freshCtx [] []) rfl rfl 1 5 7 0
        (by decide)).1 (by decide)).1,
      ((C8_literal_destination (freshCtx [] []) (freshCtx [] []) rfl rfl 1 5 7 0
        (by decide)).1 (by decide)).2 (by decide) (by decide)⟩,
    (C8_literal_destination (freshCtx [] []) (freshCtx [] []) rfl rfl 3 5 40000 0
      (by decide)).2 (Or.inr (Or.inl (by decide)))⟩

/-- Claim C8 fails as stated: `reg 5` returns 32773 and has no failure result; the
window `[3, 5, 0, 0]` (pop with the literal 5 as destination) is decoded to
`Inst_Pop 32773`, its handler runs, pops the stack, and the register write
is refused with an address-out-of-bounds error, which is not InvalidOperand;
`executeNext` returns no error. -/
theorem C8_counterexample :
    reg 5 = 32773 ∧
      NewInstruction [3, 5, 0, 0] { freshCtx [3, 5, 0, 0, 0] [] with stack := [7] } =
        .returned (.ok (.Inst_Pop 32773)) ∧
      Inst_Pop.Handle 32773 { freshCtx [3, 5, 0, 0, 0] [] with stack := [7], ip := 2 } =
        (some (.addressOutOfBounds 32773),
          { freshCtx [3, 5, 0, 0, 0] [] with stack := [], ip := 2 }) ∧
      (Failure.addressOutOfBounds 32773).kind ≠ .InvalidOperand ∧
      executeNext { freshCtx [3, 5, 0, 0, 0] [] with stack := [7] } =
        .returned (none, { freshCtx [3, 5, 0, 0, 0] [] with stack := [], ip := 2 }) :=
  ⟨rfl, rfl, rfl, by decide, rfl⟩

/-- Claim C19: whenever the decode-window read `GetRange(ip, ip + 4)` succeeds,
`ip + 4` did not wrap around 16 bits and is below the memory length; for every
length `L` in 1..4 the 16-bit sum of `ip` and `L` is `ip + L` over the natural
numbers and at most 65535; and when the window decodes to an instruction, its
length is in 1..4 and `executeNext` hands the handler the context whose `ip` is
the old `ip` plus that length, unwrapped, and returns what the handler leaves. -/
theorem C19_advance_no_overflow (ctx : executionCtx) (w : List Nat)
    (h : ctx.mem.GetRange ctx.ip (toWord (ctx.ip + 4)) = .ok w) :
    toWord (ctx.ip + 4) = ctx.ip + 4 ∧ ctx.ip + 4 < ctx.mem.data.length ∧
      (∀ L, 1 ≤ L → L ≤ 4 → toWord (ctx.ip + L) = ctx.ip + L ∧ ctx.ip + L ≤ 65535) ∧
      ∀ inst, NewInstruction w ctx = .returned (.ok inst) →
        1 ≤ inst.Len ∧ inst.Len ≤ 4 ∧
        toWord (ctx.ip + inst.Len) = ctx.ip + inst.Len ∧ ctx.ip + inst.Len ≤ 65535 ∧
        executeNext ctx =
          (match inst.Handle { ctx with ip := ctx.ip + inst.Len } with
            | .panicked c => .panicked c
            | .returned (_, ctx') => .returned (none, ctx')) := by
  have hw := ((GetRange_window ctx.mem ctx.ip w).mp h).1
  have hl : ctx.mem.data.length % 65536 ≤ ctx.mem.data.length := Nat.mod_le _ _
  unfold toWord at hw
  refine ⟨by unfold toWord; omega, by omega, ?_, ?_⟩
  · intro L h1 h4
    unfold toWord
    omega
  · intro inst hdec
    have hL4 := Len_le inst
    have hL1 : 1 ≤ inst.Len := by cases inst <;> simp [Instruction.Len]
    have hadv : toWord (ctx.ip + inst.Len) = ctx.ip + inst.Len := by
      unfold toWord
      omega
    refine ⟨hL1, hL4, hadv, by omega, ?_⟩
    unfold executeNext
    rw [if_neg (by unfold mainMemory.Len toWord; omega), h]
    simp only [hdec, hadv]

/-- Instance of claim C19: a `noop` at address 0 of a five-word memory; the cycle
leaves `ip = 1`. -/
theorem C19_witness :
    toWord ((freshCtx [21, 21, 21, 21, 0] []).ip + 4) = (freshCtx [21, 21, 21, 21, 0] []).ip + 4 ∧
      (freshCtx [21, 21, 21, 21, 0] []).ip + 4 <
        (freshCtx [21, 21, 21, 21, 0] []).mem.data.length ∧
      executeNext (freshCtx [21, 21, 21, 21, 0] []) =
        .returned (none, { freshCtx [21, 21, 21, 21, 0] [] with ip := 1 }) :=
  ⟨(C19_advance_no_overflow (freshCtx [21, 21, 21, 21, 0] []) [21, 21, 21, 21] rfl).1,
    (C19_advance_no_overflow (freshCtx [21, 21, 21, 21, 0] []) [21, 21, 21, 21] rfl).2.1,
    ((C19_advance_no_overflow (freshCtx [21, 21, 21, 21, 0] []) [21, 21, 21, 21] rfl).2.2.2
      .Inst_Noop rfl).2.2.2.2⟩

theorem not_mask_word (a : Nat) :
    (a ^^^ 0xFFFF) &&& 0x7FFF = 32767 - a % 32768 := by
  have h1 : (0xFFFF : Nat) = 2 ^ 16 - 1 := by norm_num
  have h2 : (0x7FFF : Nat) = 2 ^ 15 - 1 := by norm_num
  have h3 : 32767 - a % 32768 = 2 ^ 15 - (a % 2 ^ 15 + 1) := by norm_num; omega
  have hlt : a % 2 ^ 15 < 2 ^ 15 := Nat.mod_lt _ (by norm_num)
  apply Nat.eq_of_testBit_eq
  intro i
  rw [h3, Nat.testBit_two_pow_sub_succ hlt, Nat.testBit_and, Nat.testBit_xor, h1, h2,
    Nat.testBit_two_pow_sub_one, Nat.testBit_two_pow_sub_one, Nat.testBit_mod_two_pow]
  by_cases hi : i < 15
  · have hi' : i < 16 := by omega
    simp [hi, hi']
  · simp [hi]

/-- Claim C20: for all operand words `a`, `b`, in particular all 16-bit ones,
and a register index `r` in 0..7 of an eight-register bank, add stores `(a + b) mod 32768` and mult
stores `(a * b) mod 32768`, both taken over the natural numbers, not stores
the 15-bit complement `32767 - a mod 32768`, eq and gt store 1 or 0 according
to the comparison, and each stored value lies in [0, 32767]. -/
theorem C20_stored_values_in_range (ctx : executionCtx) (hreg : ctx.reg.data.length = 8)
    (a b r : Nat) (hr : r < 8) :
    (Inst_Add.Handle r a b ctx =
        (none, { ctx with reg := ⟨ctx.reg.data.set r ((a + b) % 32768)⟩ }) ∧
      (a + b) % 32768 ≤ 32767) ∧
    (Inst_Mult.Handle r a b ctx =
        (none, { ctx with reg := ⟨ctx.reg.data.set r ((a * b) % 32768)⟩ }) ∧
      (a * b) % 32768 ≤ 32767) ∧
    (Inst_Not.Handle r a ctx =
        (none, { ctx with reg := ⟨ctx.reg.data.set r (32767 - a % 32768)⟩ }) ∧
      32767 - a % 32768 ≤ 32767) ∧
    (Inst_Eq.Handle r a b ctx =
        (none, { ctx with reg := ⟨ctx.reg.data.set r (if a = b then 1 else 0)⟩ }) ∧
      (if a = b then 1 else 0) ≤ 1) ∧
    (Inst_Gt.Handle r a b ctx =
        (none, { ctx with reg := ⟨ctx.reg.data.set r (if a > b then 1 else 0)⟩ }) ∧
      (if a > b then 1 else 0) ≤ 1) := by
  have hs : toWord (a + b) % 32768 = (a + b) % 32768 := by unfold toWord; omega
  have hm : toWord (a * b) % 32768 = (a * b) % 32768 := by
    unfold toWord
    exact Nat.mod_mod_of_dvd _ (by norm_num)
  refine ⟨⟨?_, Nat.le_of_lt_succ (Nat.mod_lt _ (by norm_num))⟩,
    ⟨?_, Nat.le_of_lt_succ (Nat.mod_lt _ (by norm_num))⟩, ⟨?_, by omega⟩,
    ⟨?_, by split <;> omega⟩, ⟨?_, by split <;> omega⟩⟩
  · unfold Inst_Add.Handle
    rw [hs, regSet_ok ctx hreg r _ hr]
  · unfold Inst_Mult.Handle
    rw [hm, regSet_ok ctx hreg r _ hr]
  · unfold Inst_Not.Handle
    rw [not_mask_word a, regSet_ok ctx hreg r _ hr]
  · unfold Inst_Eq.Handle
    rw [regSet_ok ctx hreg r _ hr]
  · unfold Inst_Gt.Handle
    rw [regSet_ok ctx hreg r _ hr]

/-- Instance of claim C20 at `a = b = 65535`, register 0, where the 16-bit sum and
product both wrap. -/
theorem C20_witness :
    (Inst_Add.Handle 0 65535 65535 (freshCtx [] []) =
        (none, { freshCtx [] [] with
          reg := ⟨(freshCtx [] []).reg.data.set 0 ((65535 + 65535) % 32768)⟩ }) ∧
      (65535 + 65535) % 32768 ≤ 32767) ∧
    (Inst_Mult.Handle 0 65535 65535 (freshCtx [] []) =
        (none, { freshCtx [] [] with
          reg := ⟨(freshCtx [] []).reg.data.set 0 ((65535 * 65535) % 32768)⟩ }) ∧
      (65535 * 65535) % 32768 ≤ 32767) ∧
    (Inst_Not.Handle 0 65535 (freshCtx [] []) =
        (none, { freshCtx [] [] with
          reg := ⟨(freshCtx [] []).reg.data.set 0 (32767 - 65535 % 32768)⟩ }) ∧
      32767 - 65535 % 32768 ≤ 32767) ∧
    (Inst_Eq.Handle 0 65535 65535 (freshCtx [] []) =
        (none, { freshCtx [] [] with
          reg := ⟨(freshCtx [] []).reg.data.set 0 (if 65535 = 65535 then 1 else 0)⟩ }) ∧
      (if 65535 = 65535 then 1 else 0) ≤ 1) ∧
    (Inst_Gt.Handle 0 65535 65535 (freshCtx [] []) =
        (none, { freshCtx [] [] with
          reg := ⟨(freshCtx [] []).reg.data.set 0 (if 65535 > 65535 then 1 else 0)⟩ }) ∧
      (if 65535 > 65535 then 1 else 0) ≤ 1) :=
  C20_stored_values_in_range (freshCtx [] []) rfl 65535 65535 0 (by decide)

/-- Claim C12: the jt handler assigns `ip := T` exactly when `cond` is nonzero,
the jf handler exactly when `cond` is zero; otherwise each returns the context
untouched, neither returns an error nor changes registers, memory or stack, and
for every `cond` exactly one of the two takes the jump. -/
theorem C12_jt_jf_complement (ctx : executionCtx) (cond T : Nat) :
    Inst_Jt.Handle cond T ctx = (none, if cond ≠ 0 then { ctx with ip := T } else ctx) ∧
      Inst_Jf.Handle cond T ctx = (none, if cond = 0 then { ctx with ip := T } else ctx) ∧
      ((Inst_Jt.Handle cond T ctx).2.reg = ctx.reg ∧
        (Inst_Jt.Handle cond T ctx).2.mem = ctx.mem ∧
        (Inst_Jt.Handle cond T ctx).2.stack = ctx.stack) ∧
      ((Inst_Jf.Handle cond T ctx).2.reg = ctx.reg ∧
        (Inst_Jf.Handle cond T ctx).2.mem = ctx.mem ∧
        (Inst_Jf.Handle cond T ctx).2.stack = ctx.stack) ∧
      ((Inst_Jt.Handle cond T ctx = (none, { ctx with ip := T }) ∧
          Inst_Jf.Handle cond T ctx = (none, ctx) ∧ cond ≠ 0) ∨
        (Inst_Jt.Handle cond T ctx = (none, ctx) ∧
          Inst_Jf.Handle cond T ctx = (none, { ctx with ip := T }) ∧ cond = 0)) := by
  unfold Inst_Jt.Handle Inst_Jf.Handle
  by_cases h : cond = 0
  · simp [h]
  · simp [h]

/-- Claim C11: when the window at `ip = X` is read and decodes to `call T`, the
cycle returns no error with `ip = T` and `X + 2` pushed on the old stack, all
else unchanged.  On any context whose stack has that word on top, the ret
handler sets `ip` to `X + 2` and leaves the stack below it; a cycle whose
window decodes to `ret` on the context reached by the call restores `ip` to
`X + 2` and the stack to the one before the call. -/
theorem C11_call_ret_roundtrip (ctx : executionCtx) (w : List Nat) (T : Nat)
    (hw : ctx.mem.GetRange ctx.ip (toWord (ctx.ip + 4)) = .ok w)
    (hcall : NewInstruction w ctx = .returned (.ok (.Inst_Call T))) :
    executeNext ctx =
        .returned (none, { ctx with ip := T, stack := (ctx.ip + 2) :: ctx.stack }) ∧
      (∀ c : executionCtx, c.stack = (ctx.ip + 2) :: ctx.stack →
        Inst_Ret.Handle c = (none, { c with stack := ctx.stack, ip := ctx.ip + 2 })) ∧
      (∀ w2, ({ ctx with ip := T, stack := (ctx.ip + 2) :: ctx.stack } :
            executionCtx).mem.GetRange T (toWord (T + 4)) = .ok w2 →
          NewInstruction w2 { ctx with ip := T, stack := (ctx.ip + 2) :: ctx.stack } =
            .returned (.ok .Inst_Ret) →
          executeNext { ctx with ip := T, stack := (ctx.ip + 2) :: ctx.stack } =
            .returned (none, { ctx with ip := ctx.ip + 2, stack := ctx.stack })) := by
  have hwin := ((GetRange_window ctx.mem ctx.ip w).mp hw).1
  have hadv : toWord (ctx.ip + 2) = ctx.ip + 2 := by
    unfold toWord at hwin ⊢
    omega
  refine ⟨?_, ?_, ?_⟩
  · unfold executeNext
    rw [if_neg (by unfold mainMemory.Len; omega), hw]
    simp only [hcall, Instruction.Len, Instruction.Handle, Inst_Call.Handle, hadv]
  · intro c hc
    unfold Inst_Ret.Handle
    rw [hc]
  · intro w2 hw2 hret
    have hwin2 := ((GetRange_window _ _ _).mp hw2).1
    unfold executeNext
    rw [if_neg (by unfold mainMemory.Len; simp only at hwin2 ⊢; omega)]
    simp only [hw2, hret, Instruction.Len, Instruction.Handle, Inst_Ret.Handle]

/-- Instance of claim C11: `call 4` at address 0 of the image
`[17, 4, 0, 0, 18, 0, 0, 0, 0]`, whose word at address 4 is `ret`; the call
cycle leaves `ip = 4` with 2 on the stack, the ret cycle leaves `ip = 2` with
an empty stack. -/
theorem C11_witness :
    executeNext (freshCtx [17, 4, 0, 0, 18, 0, 0, 0, 0] []) =
        .returned (none, { freshCtx [17, 4, 0, 0, 18, 0, 0, 0, 0] [] with
          ip := 4, stack := [2] }) ∧
      executeNext { freshCtx [17, 4, 0, 0, 18, 0, 0, 0, 0] [] with ip := 4, stack := [2] } =
        .returned (none, { freshCtx [17, 4, 0, 0, 18, 0, 0, 0, 0] [] with
          ip := 2, stack := [] }) :=
  ⟨(C11_call_ret_roundtrip (freshCtx [17, 4, 0, 0, 18, 0, 0, 0, 0] []) [17, 4, 0, 0] 4
      rfl rfl).1,
    (C11_call_ret_roundtrip (freshCtx [17, 4, 0, 0, 18, 0, 0, 0, 0] []) [17, 4, 0, 0] 4
      rfl rfl).2.2 [18, 0, 0, 0] rfl rfl⟩

theorem NewInstruction_ok (w : List Nat) (ctx : executionCtx) (inst : Instruction)
    (h : NewInstruction w ctx = .returned (.ok inst)) :
    ∃ x y z, lookup (w.getD 0 0) (reg (w.getD 1 0)) x y z = .ok inst := by
  unfold NewInstruction at h
  split_ifs at h with hlen
  · cases h
  · simp only at h
    cases h1 : value (w.getD 1 0) ctx with
    | error e => rw [h1] at h; cases h
    | ok x =>
      cases h2 : value (w.getD 2 0) ctx with
      | error e => rw [h1, h2] at h; cases h
      | ok y =>
        cases h3 : value (w.getD 3 0) ctx with
        | error e => rw [h1, h2, h3] at h; cases h
        | ok z =>
          rw [h1, h2, h3] at h
          simp only [Outcome.returned.injEq] at h
          exact ⟨x, y, z, h⟩

theorem lookup_opcode (a r x y z : Nat) (inst : Instruction)
    (h : lookup a r x y z = .ok inst) : inst.opcode = a ∧ inst.Len = specLen a := by
  by_cases ha : 22 ≤ a
  · rw [lookup_unknown a r x y z ha] at h
    cases h
  · have ha' : a < 22 := by omega
    interval_cases a <;> simp only [lookup] at h <;> cases h <;> exact ⟨rfl, rfl⟩

theorem returnRegSet_ip (c : executionCtx) (r v : Nat) :
    ∃ e c', returnRegSet c r v = (e, c') ∧ c'.ip = c.ip := by
  unfold returnRegSet
  cases c.reg.Set r v <;> exact ⟨_, _, rfl, rfl⟩

theorem takeBuffered_ip (r : Nat) (c : executionCtx) :
    ∃ e c', Inst_In.takeBuffered r c = (e, c') ∧ c'.ip = c.ip := by
  unfold Inst_In.takeBuffered
  cases c.inBuf with
  | nil => exact ⟨_, _, rfl, rfl⟩
  | cons ch rest => exact returnRegSet_ip { c with inBuf := rest } r _

theorem Handle_ip (inst : Instruction) (c : executionCtx)
    (hmod : ∀ r a, inst ≠ .Inst_Mod r a 0) :
    ∃ e c', inst.Handle c = .returned (e, c') ∧ c'.ip = (inst.assignedIp c).getD c.ip := by
  have lift : ∀ (h : Handled) (t : Nat), (∃ e c', h = (e, c') ∧ c'.ip = t) →
      ∃ e c', Outcome.returned h = Outcome.returned (e, c') ∧ c'.ip = t := by
    rintro h t ⟨e, c', h1, h2⟩
    exact ⟨e, c', by rw [h1], h2⟩
  cases inst with
  | Inst_Halt => exact ⟨_, _, rfl, rfl⟩
  | Inst_Set r v => exact lift _ _ (returnRegSet_ip c r v)
  | Inst_Push v => exact ⟨_, _, rfl, rfl⟩
  | Inst_Pop r =>
    apply lift
    unfold Inst_Pop.Handle
    cases c.stack with
    | nil => exact ⟨_, _, rfl, rfl⟩
    | cons t rest => exact returnRegSet_ip { c with stack := rest } r t
  | Inst_Eq r a b => exact lift _ _ (returnRegSet_ip c r _)
  | Inst_Gt r a b => exact lift _ _ (returnRegSet_ip c r _)
  | Inst_Jmp t => exact ⟨_, _, rfl, rfl⟩
  | Inst_Jt cnd t =>
    apply lift
    unfold Inst_Jt.Handle Instruction.assignedIp
    by_cases h : cnd = 0
    · exact ⟨_, _, by rw [if_neg (by simpa using h)], by simp [h]⟩
    · exact ⟨_, _, by rw [if_pos h], by simp [h]⟩
  | Inst_Jf cnd t =>
    apply lift
    unfold Inst_Jf.Handle Instruction.assignedIp
    by_cases h : cnd = 0
    · exact ⟨_, _, by rw [if_pos h], by simp [h]⟩
    · exact ⟨_, _, by rw [if_neg h], by simp [h]⟩
  | Inst_Add r a b => exact lift _ _ (returnRegSet_ip c r _)
  | Inst_Mult r a b => exact lift _ _ (returnRegSet_ip c r _)
  | Inst_Mod r a b =>
    have hb : b ≠ 0 := fun hb => hmod r a (by rw [hb])
    simp only [Instruction.Handle, Inst_Mod.Handle, if_neg hb]
    exact lift _ _ (returnRegSet_ip c r _)
  | Inst_And r a b => exact lift _ _ (returnRegSet_ip c r _)
  | Inst_Or r a b => exact lift _ _ (returnRegSet_ip c r _)
  | Inst_Not r a => exact lift _ _ (returnRegSet_ip c r _)
  | Inst_Rmem r a =>
    apply lift
    unfold Inst_Rmem.Handle
    cases c.mem.Get a with
    | error err => exact ⟨_, _, rfl, rfl⟩
    | ok val => exact returnRegSet_ip c r val
  | Inst_Wmem a v =>
    apply lift
    unfold Inst_Wmem.Handle
    cases c.mem.Set a v <;> exact ⟨_, _, rfl, rfl⟩
  | Inst_Call a => exact ⟨_, _, rfl, rfl⟩
  | Inst_Ret =>
    apply lift
    unfold Inst_Ret.Handle Instruction.assignedIp
    cases c.stack with
    | nil => exact ⟨_, _, rfl, rfl⟩
    | cons t rest => exact ⟨_, _, rfl, rfl⟩
  | Inst_Out ch => exact ⟨_, _, rfl, rfl⟩
  | Inst_In r =>
    apply lift
    unfold Inst_In.Handle
    split_ifs
    · rcases readBytes 10 [] c.stdin with ⟨_ | input, left⟩
      · exact ⟨_, _, rfl, rfl⟩
      · exact takeBuffered_ip r { c with inBuf := input, stdin := left }
    · exact takeBuffered_ip r c
  | Inst_Noop => exact ⟨_, _, rfl, rfl⟩

/-- Claim C18 fails as stated: on the image `[11, 32768, 5, 0, 0]` the window
decodes to `mod` with divisor register 0, which holds 0; the handler panics
on the division, so the cycle does not complete and leaves no `ip` equal to
the old `ip` plus the length 4. -/
theorem C18_counterexample :
    NewInstruction [11, 32768, 5, 0] (freshCtx [11, 32768, 5, 0, 0] []) =
        .returned (.ok (.Inst_Mod 0 5 0)) ∧
      executeNext (freshCtx [11, 32768, 5, 0, 0] []) = .panicked .divideByZero ∧
      ¬ (∃ e ctx', executeNext (freshCtx [11, 32768, 5, 0, 0] []) = .returned (e, ctx') ∧
        ctx'.ip = (freshCtx [11, 32768, 5, 0, 0] []).ip + 4) := by
  refine ⟨rfl, rfl, ?_⟩
  rintro ⟨e, ctx', h, -⟩
  have hp : executeNext (freshCtx [11, 32768, 5, 0, 0] []) = .panicked .divideByZero := rfl
  rw [hp] at h
  cases h

/-- Claim C18, amended: when the window at `ip` is read and decodes to an
instruction other than a `mod` with divisor 0 (whose handler aborts the
process), the instruction's length is the one the specification's table gives
for its opcode, the handler runs on the context whose `ip` is already
`ip + length` (no 16-bit wrap), the cycle returns, and after it `ip` is the
value the handler assigned for jmp, taken jt/jf, call and successful ret, and
`ip + length` for every other instruction, untaken jt/jf included. -/
theorem C18_ip_after_cycle (ctx : executionCtx) (w : List Nat) (inst : Instruction)
    (hw : ctx.mem.GetRange ctx.ip (toWord (ctx.ip + 4)) = .ok w)
    (hdec : NewInstruction w ctx = .returned (.ok inst))
    (hmod : ∀ r a, inst ≠ .Inst_Mod r a 0) :
    inst.opcode = w.getD 0 0 ∧ inst.Len = specLen inst.opcode ∧
      toWord (ctx.ip + inst.Len) = ctx.ip + inst.Len ∧
      ∃ e ctx', inst.Handle { ctx with ip := ctx.ip + inst.Len } = .returned (e, ctx') ∧
        executeNext ctx = .returned (none, ctx') ∧
        ctx'.ip = (inst.assignedIp ctx).getD (ctx.ip + inst.Len) := by
  have hwin := ((GetRange_window ctx.mem ctx.ip w).mp hw).1
  obtain ⟨x, y, z, hl⟩ := NewInstruction_ok w ctx inst hdec
  obtain ⟨hop, hlen⟩ := lookup_opcode _ _ _ _ _ _ hl
  have hL := Len_le inst
  have hadv : toWord (ctx.ip + inst.Len) = ctx.ip + inst.Len := by
    unfold toWord at hwin ⊢
    omega
  refine ⟨hop, by rw [hop]; exact hlen, hadv, ?_⟩
  obtain ⟨e, c', hh, hip⟩ := Handle_ip inst { ctx with ip := ctx.ip + inst.Len } hmod
  have hassign : inst.assignedIp { ctx with ip := ctx.ip + inst.Len } = inst.assignedIp ctx := by
    cases inst <;> rfl
  refine ⟨e, c', hh, ?_, by rw [hip, hassign]⟩
  unfold executeNext
  rw [if_neg (by unfold mainMemory.Len; omega), hw]
  simp only [hdec, hadv, hh]

/-- Instance of the amended claim C18: an untaken `jt` (condition 0) at address 0 leaves
`ip = 3`. -/
theorem C18_witness :
    Instruction.opcode (.Inst_Jt 0 5) = [7, 0, 5, 0].getD 0 0 ∧
      Instruction.Len (.Inst_Jt 0 5) = specLen (Instruction.opcode (.Inst_Jt 0 5)) ∧
      toWord ((freshCtx [7, 0, 5, 0, 0] []).ip + Instruction.Len (.Inst_Jt 0 5)) =
        (freshCtx [7, 0, 5, 0, 0] []).ip + Instruction.Len (.Inst_Jt 0 5) ∧
      ∃ e ctx', Instruction.Handle (.Inst_Jt 0 5)
          { freshCtx [7, 0, 5, 0, 0] [] with
            ip := (freshCtx [7, 0, 5, 0, 0] []).ip + Instruction.Len (.Inst_Jt 0 5) } =
          .returned (e, ctx') ∧
        executeNext (freshCtx [7, 0, 5, 0, 0] []) = .returned (none, ctx') ∧
        ctx'.ip = (Instruction.assignedIp (freshCtx [7, 0, 5, 0, 0] []) (.Inst_Jt 0 5)).getD
          ((freshCtx [7, 0, 5, 0, 0] []).ip + Instruction.Len (.Inst_Jt 0 5)) :=
  C18_ip_after_cycle (freshCtx [7, 0, 5, 0, 0] []) [7, 0, 5, 0] (.Inst_Jt 0 5) rfl rfl
    (by intro r a h; cases h)

theorem lookup_known (a r x y z : Nat) (ha : a < 22) :
    ∃ inst, lookup a r x y z = .ok inst ∧ inst.opcode = a := by
  interval_cases a <;> exact ⟨_, rfl, rfl⟩

/-- Claim C16 fails as stated: with the operand word 32776 in the window, the
unknown opcode 22 does not produce the unknown-opcode error and the opcode 0
does not produce the halt record; in both cases the decoder panics in `check`
with the invalid-number error. -/
theorem C16_counterexample :
    NewInstruction [22, 32776, 0, 0] (freshCtx [] []) =
        .panicked (.checkFailed (.invalidNumber 32776)) ∧
      NewInstruction [0, 0, 0, 32776] (freshCtx [] []) =
        .panicked (.checkFailed (.invalidNumber 32776)) ∧
      ¬ (∀ a b c d : Nat, 22 ≤ a →
        NewInstruction [a, b, c, d] (freshCtx [] []) = .returned (.error (.noInstruction a))) := by
  refine ⟨rfl, rfl, ?_⟩
  intro h
  have h1 := h 22 32776 0 0 (by decide)
  have h2 : NewInstruction [22, 32776, 0, 0] (freshCtx [] []) =
      .panicked (.checkFailed (.invalidNumber 32776)) := rfl
  rw [h2] at h1
  cases h1

/-- Claim C16, amended: with an eight-register bank and a window whose three
operand words are all at most 32775, decoding returns an error exactly when
the opcode word is not one of 0..21, that error is the unknown-opcode error,
and for an opcode in 0..21 the decoder returns the instruction record of that
opcode.  When an operand word is 32776 or more the decoder panics with the
invalid-number error, whatever the opcode word is. -/
theorem C16_unknown_opcode (ctx : executionCtx) (hreg : ctx.reg.data.length = 8)
    (a b c d : Nat) :
    (b < 32776 → c < 32776 → d < 32776 →
      ((∃ e, NewInstruction [a, b, c, d] ctx = .returned (.error e)) ↔ 22 ≤ a) ∧
      (22 ≤ a → NewInstruction [a, b, c, d] ctx = .returned (.error (.noInstruction a)) ∧
        (Failure.noInstruction a).kind = .UnknownOpcode) ∧
      (a < 22 → ∃ inst, NewInstruction [a, b, c, d] ctx = .returned (.ok inst) ∧
        inst.opcode = a)) ∧
    (32776 ≤ b ∨ 32776 ≤ c ∨ 32776 ≤ d →
      ∃ n, 32776 ≤ n ∧
        NewInstruction [a, b, c, d] ctx = .panicked (.checkFailed (.invalidNumber n))) := by
  constructor
  · intro hb hc hd
    have hN : NewInstruction [a, b, c, d] ctx =
        .returned (lookup a (reg b) (operand ctx b) (operand ctx c) (operand ctx d)) := by
      rw [NewInstruction_window ctx hreg, if_neg (by omega), if_neg (by omega),
        if_neg (by omega)]
    have hknown : a < 22 → ∃ inst, NewInstruction [a, b, c, d] ctx = .returned (.ok inst) ∧
        inst.opcode = a := by
      intro ha
      obtain ⟨inst, hi, ho⟩ := lookup_known a (reg b) (operand ctx b) (operand ctx c)
        (operand ctx d) ha
      exact ⟨inst, by rw [hN, hi], ho⟩
    have hunknown : 22 ≤ a →
        NewInstruction [a, b, c, d] ctx = .returned (.error (.noInstruction a)) := by
      intro ha
      rw [hN, lookup_unknown _ _ _ _ _ ha]
    refine ⟨⟨?_, fun ha => ⟨_, hunknown ha⟩⟩, fun ha => ⟨hunknown ha, rfl⟩, hknown⟩
    rintro ⟨e, he⟩
    by_contra ha
    obtain ⟨inst, hi, -⟩ := hknown (by omega)
    rw [hi] at he
    cases he
  · intro h
    rw [NewInstruction_window ctx hreg]
    by_cases hb : 32776 ≤ b
    · exact ⟨b, hb, by rw [if_pos hb]⟩
    · by_cases hc : 32776 ≤ c
      · exact ⟨c, hc, by rw [if_neg hb, if_pos hc]⟩
      · have hd : 32776 ≤ d := by omega
        exact ⟨d, hd, by rw [if_neg hb, if_neg hc, if_pos hd]⟩

/-- Instance of the amended claim C16: the window `[22, 1, 2, 3]` gives the
unknown-opcode error, the window `[21, 1, 2, 3]` gives the noop record. -/
theorem C16_witness :
    (NewInstruction [22, 1, 2, 3] (freshCtx [] []) = .returned (.error (.noInstruction 22)) ∧
        (Failure.noInstruction 22).kind = .UnknownOpcode) ∧
      ∃ inst, NewInstruction [21, 1, 2, 3] (freshCtx [] []) = .returned (.ok inst) ∧
        inst.opcode = 21 :=
  ⟨((C16_unknown_opcode (freshCtx [] []) rfl 22 1 2 3).1 (by decide) (by decide)
      (by decide)).2.1 (by decide),
    ((C16_unknown_opcode (freshCtx [] []) rfl 21 1 2 3).1 (by decide) (by decide)
      (by decide)).2.2 (by decide)⟩

theorem utf8_one (v : Nat) (hv : v ≤ 127) : utf8OfWord v = [v] := by
  unfold utf8OfWord
  rw [if_pos (by omega)]

theorem or_128 (x : Nat) (hx : x < 64) : 0x80 ||| x = 128 + x := by
  have h := Nat.mul_add_lt_is_or (show x < 2 ^ 7 by norm_num; omega) 1
  simp only [show (2 : Nat) ^ 7 * 1 = 128 by norm_num] at h
  exact h.symm

theorem and_63 (x : Nat) : x &&& 0x3F = x % 64 := by
  have e3 : (0x3F : Nat) = 2 ^ 6 - 1 := by decide
  rw [e3, Nat.and_pow_two_sub_one_eq_mod]

theorem utf8_two (v : Nat) (h1 : 128 ≤ v) (h2 : v ≤ 2047) :
    utf8OfWord v = [192 + v / 64, 128 + v % 64] := by
  unfold utf8OfWord
  rw [if_neg (by omega), if_pos (by omega)]
  have a1 : v >>> 6 = v / 64 := by rw [Nat.shiftRight_eq_div_pow]
  have hA : 0xC0 ||| (v / 64) = 192 + v / 64 := by
    have h := Nat.mul_add_lt_is_or (show v / 64 < 2 ^ 6 by norm_num; omega) 3
    simp only [show (2 : Nat) ^ 6 * 3 = 192 by norm_num] at h
    exact h.symm
  rw [a1, and_63, hA, or_128 _ (Nat.mod_lt _ (by norm_num))]

theorem utf8_three (v : Nat) (h1 : 2048 ≤ v) (h2 : v ≤ 32767) :
    utf8OfWord v = [224 + v / 4096, 128 + v / 64 % 64, 128 + v % 64] := by
  unfold utf8OfWord
  rw [if_neg (by omega), if_neg (by omega), if_neg (by omega)]
  have a0 : v >>> 12 = v / 4096 := by rw [Nat.shiftRight_eq_div_pow]
  have a1 : v >>> 6 = v / 64 := by rw [Nat.shiftRight_eq_div_pow]
  have hA : 0xE0 ||| (v / 4096) = 224 + v / 4096 := by
    have h := Nat.mul_add_lt_is_or (show v / 4096 < 2 ^ 5 by norm_num; omega) 7
    simp only [show (2 : Nat) ^ 5 * 7 = 224 by norm_num] at h
    exact h.symm
  rw [a0, a1, and_63, and_63, hA, or_128 _ (Nat.mod_lt _ (by norm_num)),
    or_128 _ (Nat.mod_lt _ (by norm_num))]

/-- Claim C15 fails as stated: for the operand value 200 the out handler appends
the two bytes 195 and 136, the UTF-8 encoding of code point 200, and not the
single byte 200. -/
theorem C15_counterexample :
    Inst_Out.Handle 200 (freshCtx [] []) =
        (none, { freshCtx [] [] with stdout := [195, 136] }) ∧
      ¬ (∀ v : Nat, v ≤ 32767 →
        (Inst_Out.Handle v (freshCtx [] [])).2.stdout = [v % 256]) := by
  refine ⟨rfl, ?_⟩
  intro h
  have h1 := h 200 (by decide)
  have h2 : (Inst_Out.Handle 200 (freshCtx [] [])).2.stdout = [195, 136] := rfl
  rw [h2] at h1
  cases h1

/-- Claim C15, amended: the out handler returns no error and appends to the
output the UTF-8 encoding of the operand value taken as a code point: the
single byte `v` for `v` in [0, 127], two bytes for `v` in [128, 2047], three
bytes for `v` in [2048, 32767]; nothing else in the context changes.  For
`v = 65` the output is the single byte 65. -/
theorem C15_out_utf8 (ctx : executionCtx) (v : Nat) :
    (v ≤ 127 →
      Inst_Out.Handle v ctx = (none, { ctx with stdout := ctx.stdout ++ [v] }) ∧
        v % 256 = v) ∧
    (128 ≤ v → v ≤ 2047 →
      Inst_Out.Handle v ctx =
        (none, { ctx with stdout := ctx.stdout ++ [192 + v / 64, 128 + v % 64] })) ∧
    (2048 ≤ v → v ≤ 32767 →
      Inst_Out.Handle v ctx =
        (none, { ctx with stdout := ctx.stdout ++
          [224 + v / 4096, 128 + v / 64 % 64, 128 + v % 64] })) ∧
    Inst_Out.Handle 65 ctx = (none, { ctx with stdout := ctx.stdout ++ [65] }) := by
  unfold Inst_Out.Handle
  refine ⟨fun h => ⟨by rw [utf8_one v h], by omega⟩, fun h1 h2 => by rw [utf8_two v h1 h2],
    fun h1 h2 => by rw [utf8_three v h1 h2], rfl⟩

/-- Instance of the amended claim C15: values 65, 200 and 32767. -/
theorem C15_witness :
    Inst_Out.Handle 65 (freshCtx [] []) =
        (none, { freshCtx [] [] with stdout := [] ++ [65] }) ∧
      Inst_Out.Handle 200 (freshCtx [] []) =
        (none, { freshCtx [] [] with stdout := [] ++ [192 + 200 / 64, 128 + 200 % 64] }) ∧
      Inst_Out.Handle 32767 (freshCtx [] []) =
        (none, { freshCtx [] [] with stdout := [] ++
          [224 + 32767 / 4096, 128 + 32767 / 64 % 64, 128 + 32767 % 64] }) :=
  ⟨((C15_out_utf8 (freshCtx [] []) 65).1 (by decide)).1,
    (C15_out_utf8 (freshCtx [] []) 200).2.1 (by decide) (by decide),
    (C15_out_utf8 (freshCtx [] []) 32767).2.2.1 (by decide) (by decide)⟩

theorem in_buffered (r : Nat) (c : executionCtx) (hreg : c.reg.data.length = 8) (hr : r < 8)
    (ch : Nat) (rest : List Nat) (hb : c.inBuf = ch :: rest) :
    Inst_In.Handle r c =
      (none, { c with inBuf := rest, reg := ⟨c.reg.data.set r (bytesToWord ch 0)⟩ }) := by
  unfold Inst_In.Handle
  rw [if_neg (by rw [hb]; simp)]
  unfold Inst_In.takeBuffered
  rw [hb]
  simp only
  rw [regSet_ok { c with inBuf := rest } hreg r _ hr]

/-- Claim C14 fails as stated: with the lines "AB\n" and "C\n" pending and an
empty buffer, after two in handlers the buffer still holds the newline; the
third in handler stores 10 from the buffer and leaves the input stream as it
was, so it performs no read. -/
theorem C14_counterexample :
    Inst_In.Handle 2
        { freshCtx [] [[67, 10]] with inBuf := [10], reg := ⟨[65, 66, 0, 0, 0, 0, 0, 0]⟩ } =
      (none,
        { freshCtx [] [[67, 10]] with inBuf := [], reg := ⟨[65, 66, 10, 0, 0, 0, 0, 0]⟩ }) ∧
    (Inst_In.Handle 1 (Inst_In.Handle 0 (freshCtx [] [[65, 66, 10], [67, 10]])).2).2 =
      { freshCtx [] [[67, 10]] with inBuf := [10], reg := ⟨[65, 66, 0, 0, 0, 0, 0, 0]⟩ } ∧
    (Inst_In.Handle 2 (Inst_In.Handle 1
        (Inst_In.Handle 0 (freshCtx [] [[65, 66, 10], [67, 10]])).2).2).2.stdin =
      (Inst_In.Handle 1 (Inst_In.Handle 0 (freshCtx [] [[65, 66, 10], [67, 10]])).2).2.stdin :=
  ⟨rfl, rfl, rfl⟩

theorem takeThrough_cons (d x : Nat) (l : List Nat) :
    ∃ ch tail, takeThrough d (x :: l) = ch :: tail := by
  unfold takeThrough
  split_ifs
  · exact ⟨x, [], rfl⟩
  · exact ⟨x, _, rfl⟩

theorem readBytes_some (d : Nat) (chunks : List (List Nat)) :
    ∀ (held input : List Nat) (left : List (List Nat)),
      readBytes d held chunks = (some input, left) → ∃ ch tail, input = ch :: tail := by
  induction chunks with
  | nil =>
    intro held input left h
    simp [readBytes] at h
  | cons c rest ih =>
    intro held input left h
    unfold readBytes at h
    split_ifs at h with hmem
    · simp only [Prod.mk.injEq, Option.some.injEq] at h
      obtain ⟨x, l, hx⟩ : ∃ x l, held ++ c = x :: l := by
        cases hb : held ++ c with
        | nil => rw [hb] at hmem; cases hmem
        | cons x l => exact ⟨x, l, rfl⟩
      rw [hx] at h
      obtain ⟨ch, tail, ht⟩ := takeThrough_cons d x l
      exact ⟨ch, tail, by rw [← h.1, ht]⟩
    · exact ih _ _ _ h

theorem in_reads (r : Nat) (c : executionCtx) (hreg : c.reg.data.length = 8) (hr : r < 8)
    (hb : c.inBuf = []) (ch : Nat) (tail : List Nat) (left : List (List Nat))
    (hread : readBytes 10 [] c.stdin = (some (ch :: tail), left)) :
    Inst_In.Handle r c =
      (none,
        { c with
          inBuf := tail, stdin := left,
          reg := ⟨c.reg.data.set r (bytesToWord ch 0)⟩ }) := by
  unfold Inst_In.Handle
  rw [if_pos (by rw [hb]; simp), hread]
  simp only
  unfold Inst_In.takeBuffered
  simp only
  rw [regSet_ok { c with inBuf := tail, stdin := left } hreg r _ hr]

theorem in_read_fails (r : Nat) (c : executionCtx) (hb : c.inBuf = [])
    (left : List (List Nat)) (hread : readBytes 10 [] c.stdin = (none, left)) :
    Inst_In.Handle r c = (some .readError, { c with inBuf := [], stdin := left }) := by
  unfold Inst_In.Handle
  rw [if_pos (by rw [hb]; simp), hread]

/-- Claim C14, amended: from an empty buffer and an input stream whose next line
read returns "AB\n", the first in handler performs that read and stores 65,
the second reads nothing and stores 66, the third again reads nothing and
stores 10, the newline of the same buffered line, which empties the buffer.
The fourth in handler performs a fresh line read on what is left of the
stream: when that read returns a line, it stores the line's first byte and
keeps the rest buffered; when the stream has ended, it returns the read error
with the buffer empty. -/
theorem C14_line_buffered_input (ctx : executionCtx) (hreg : ctx.reg.data.length = 8)
    (hbuf : ctx.inBuf = []) (left : List (List Nat))
    (hline : readBytes 10 [] ctx.stdin = (some [65, 66, 10], left))
    (r1 r2 r3 r4 : Nat) (h1 : r1 < 8) (h2 : r2 < 8) (h3 : r3 < 8) (h4 : r4 < 8) :
    ∃ c1 c2 c3,
      (Inst_In.Handle r1 ctx = (none, c1) ∧ c1.reg = ⟨ctx.reg.data.set r1 65⟩ ∧
        c1.stdin = left ∧ c1.inBuf = [66, 10]) ∧
      (Inst_In.Handle r2 c1 = (none, c2) ∧ c2.reg = ⟨c1.reg.data.set r2 66⟩ ∧
        c2.stdin = c1.stdin ∧ c2.inBuf = [10]) ∧
      (Inst_In.Handle r3 c2 = (none, c3) ∧ c3.reg = ⟨c2.reg.data.set r3 10⟩ ∧
        c3.stdin = c2.stdin ∧ c3.inBuf = []) ∧
      (∀ left', readBytes 10 [] left = (none, left') →
        Inst_In.Handle r4 c3 = (some .readError, { c3 with inBuf := [], stdin := left' })) ∧
      (∀ input left', readBytes 10 [] left = (some input, left') →
        ∃ ch tail, input = ch :: tail ∧
          Inst_In.Handle r4 c3 =
            (none,
              { c3 with
                inBuf := tail, stdin := left',
                reg := ⟨c3.reg.data.set r4 (bytesToWord ch 0)⟩ })) := by
  have e1 := in_reads r1 ctx hreg h1 hbuf 65 [66, 10] left hline
  have hreg1 : (
      { ctx with
        inBuf := [66, 10], stdin := left,
        reg := ⟨ctx.reg.data.set r1 (bytesToWord 65 0)⟩ } : executionCtx).reg.data.length = 8 := by
    simp [hreg]
  have e2 := in_buffered r2 _ hreg1 h2 66 [10] rfl
  have hreg2 : (
      { ctx with
        inBuf := [10], stdin := left,
        reg := ⟨(ctx.reg.data.set r1 (bytesToWord 65 0)).set r2 (bytesToWord 66 0)⟩ } :
      executionCtx).reg.data.length = 8 := by
    simp [hreg]
  have e3 := in_buffered r3 _ hreg2 h3 10 [] rfl
  refine ⟨_, _, _, ⟨e1, rfl, rfl, rfl⟩, ⟨e2, rfl, rfl, rfl⟩, ⟨e3, rfl, rfl, rfl⟩, ?_, ?_⟩
  · intro left' hread
    exact in_read_fails r4 _ rfl left' hread
  · intro input left' hread
    obtain ⟨ch, tail, rfl⟩ := readBytes_some 10 left [] input left' hread
    exact ⟨ch, tail, rfl, in_reads r4 _ (by simp [hreg]) h4 rfl ch tail left' hread⟩

/-- Instance of the amended claim C14 on a stream that delivers "AB\nC\n" in one
chunk and then "D\n": the first read returns "AB\n" and the reader's "C\n" is
lost with it; the fourth handler reads "D\n". -/
theorem C14_witness :
    ∃ c1 c2 c3,
      (Inst_In.Handle 0 (freshCtx [] [[65, 66, 10, 67, 10], [68, 10]]) = (none, c1) ∧
        c1.reg = ⟨(freshCtx [] [[65, 66, 10, 67, 10], [68, 10]]).reg.data.set 0 65⟩ ∧
        c1.stdin = [[68, 10]] ∧ c1.inBuf = [66, 10]) ∧
      (Inst_In.Handle 1 c1 = (none, c2) ∧ c2.reg = ⟨c1.reg.data.set 1 66⟩ ∧
        c2.stdin = c1.stdin ∧ c2.inBuf = [10]) ∧
      (Inst_In.Handle 2 c2 = (none, c3) ∧ c3.reg = ⟨c2.reg.data.set 2 10⟩ ∧
        c3.stdin = c2.stdin ∧ c3.inBuf = []) ∧
      (∀ left', readBytes 10 [] [[68, 10]] = (none, left') →
        Inst_In.Handle 3 c3 = (some .readError, { c3 with inBuf := [], stdin := left' })) ∧
      (∀ input left', readBytes 10 [] [[68, 10]] = (some input, left') →
        ∃ ch tail, input = ch :: tail ∧
          Inst_In.Handle 3 c3 =
            (none,
              { c3 with
                inBuf := tail, stdin := left',
                reg := ⟨c3.reg.data.set 3 (bytesToWord ch 0)⟩ })) :=
  C14_line_buffered_input (freshCtx [] [[65, 66, 10, 67, 10], [68, 10]]) rfl rfl [[68, 10]] rfl
    0 1 2 3 (by decide) (by decide) (by decide) (by decide)

theorem guard_of_length_65536 (l : List Nat) (hl : l.length = 65536) :
    0 < (mainMemory.mk l).Len ∧
      (mainMemory.mk l).Get 0 = .error (.addressOutOfBounds 0) ∧
      (mainMemory.mk l).Set 0 7 = .error (.addressOutOfBounds 0) ∧
      toWord (mainMemory.mk l).Len = 0 := by
  refine ⟨?_, ?_, ?_, ?_⟩
  · unfold mainMemory.Len
    simp only [hl]
    decide
  · unfold mainMemory.Get toWord
    simp only [hl]
    rfl
  · unfold mainMemory.Set toWord
    simp only [hl]
    rfl
  · unfold mainMemory.Len toWord
    simp only [hl]

/-- Claim C17, evaluated on a memory of 65536 words (an image file of 131072
bytes): address 0 is below the length, yet `Get` and `Set` both return the
out-of-bounds error, because the guard compares the address with the length
converted to a 16-bit word, which is 0. -/
theorem C17_length_truncated :
    0 < (mainMemory.mk (List.replicate 65536 0)).Len ∧
      (mainMemory.mk (List.replicate 65536 0)).Get 0 = .error (.addressOutOfBounds 0) ∧
      (mainMemory.mk (List.replicate 65536 0)).Set 0 7 = .error (.addressOutOfBounds 0) ∧
      toWord (mainMemory.mk (List.replicate 65536 0)).Len = 0 :=
  guard_of_length_65536 (List.replicate 65536 0) (List.length_replicate _ _)

/-- Claim C13 fails as stated: in a five-word memory, after `wmem 4, 21` the
cell at address 4 holds 21, but the decode-window read starting at 4 returns
the out-of-bounds error and yields no opcode word. -/
theorem C13_counterexample :
    Inst_Wmem.Handle 4 21 (freshCtx [0, 0, 0, 0, 0] []) =
        (none, freshCtx [0, 0, 0, 0, 21] []) ∧
      (freshCtx [0, 0, 0, 0, 21] []).mem.GetRange 4 (toWord (4 + 4)) =
        .error (.addressesOutOfBounds 4 8) ∧
      ¬ (∀ (ctx : executionCtx) (A V : Nat), A < ctx.mem.Len →
        ∃ w, (Inst_Wmem.Handle A V ctx).2.mem.GetRange A (toWord (A + 4)) = .ok w ∧
          w.getD 0 0 = V) := by
  refine ⟨rfl, rfl, ?_⟩
  intro h
  obtain ⟨w, hw, -⟩ := h (freshCtx [0, 0, 0, 0, 0] []) 4 21 (by decide)
  have h2 : (Inst_Wmem.Handle 4 21 (freshCtx [0, 0, 0, 0, 0] [])).2.mem.GetRange 4
      (toWord (4 + 4)) = .error (.addressesOutOfBounds 4 8) := rfl
  rw [h2] at hw
  cases hw

/-- Claim C13, amended: in a memory of fewer than 65536 words, for an address
`A` below the length, the wmem handler returns no error and changes only the
memory; afterwards `Get A` returns `V`, every other cell and the length are
unchanged, registers and stack are unchanged, any successful decode-window
read starting at `A` has `V` as its opcode word, and that read succeeds
whenever `A + 4` is below the length. -/
theorem C13_wmem_visible (ctx : executionCtx) (A V : Nat)
    (hlen : ctx.mem.data.length < 65536) (hA : A < ctx.mem.data.length) :
    ∃ c, Inst_Wmem.Handle A V ctx = (none, c) ∧
      c.mem.Get A = .ok V ∧
      (∀ B, B ≠ A → c.mem.data.getD B 0 = ctx.mem.data.getD B 0) ∧
      c.mem.data.length = ctx.mem.data.length ∧
      c.reg = ctx.reg ∧ c.stack = ctx.stack ∧
      (∀ w, c.mem.GetRange A (toWord (A + 4)) = .ok w → w.getD 0 0 = V) ∧
      (A + 4 < ctx.mem.data.length →
        ∃ w, c.mem.GetRange A (toWord (A + 4)) = .ok w ∧ w.getD 0 0 = V) := by
  have hword : toWord ctx.mem.data.length = ctx.mem.data.length := by
    unfold toWord
    omega
  have hget : (ctx.mem.data.set A V).getD A 0 = V := by
    rw [List.getD_eq_getElem?_getD, List.getElem?_set_self hA]
    rfl
  refine ⟨{ ctx with mem := ⟨ctx.mem.data.set A V⟩ }, ?_, ?_, ?_, ?_, rfl, rfl, ?_, ?_⟩
  · unfold Inst_Wmem.Handle mainMemory.Set
    rw [hword, if_neg (by omega)]
  · unfold mainMemory.Get
    simp only [List.length_set]
    rw [hword, if_neg (by omega), hget]
  · intro B hB
    rw [List.getD_eq_getElem?_getD, List.getD_eq_getElem?_getD,
      List.getElem?_set_ne (Ne.symm hB)]
  · simp
  · intro w hw
    obtain ⟨-, rfl⟩ := (GetRange_window _ _ _).mp hw
    simpa using hget
  · intro h4
    refine ⟨_, (GetRange_window _ _ _).mpr ⟨?_, rfl⟩, by simpa using hget⟩
    simp only [List.length_set]
    rw [hword]
    exact h4

/-- Instance of the amended claim C13: `wmem 1, 21` in a six-word memory. -/
theorem C13_witness :
    ∃ c, Inst_Wmem.Handle 1 21 (freshCtx [0, 0, 0, 0, 0, 0] []) = (none, c) ∧
      c.mem.Get 1 = .ok 21 ∧
      (∀ B, B ≠ 1 → c.mem.data.getD B 0 = (freshCtx [0, 0, 0, 0, 0, 0] []).mem.data.getD B 0) ∧
      c.mem.data.length = (freshCtx [0, 0, 0, 0, 0, 0] []).mem.data.length ∧
      c.reg = (freshCtx [0, 0, 0, 0, 0, 0] []).reg ∧
      c.stack = (freshCtx [0, 0, 0, 0, 0, 0] []).stack ∧
      (∀ w, c.mem.GetRange 1 (toWord (1 + 4)) = .ok w → w.getD 0 0 = 21) ∧
      (1 + 4 < (freshCtx [0, 0, 0, 0, 0, 0] []).mem.data.length →
        ∃ w, c.mem.GetRange 1 (toWord (1 + 4)) = .ok w ∧ w.getD 0 0 = 21) :=
  C13_wmem_visible (freshCtx [0, 0, 0, 0, 0, 0] []) 1 21 (by decide) (by decide)

end Synacor
